import Mathlib

/-!
Verification of the `json_sax.py` JSON stream (SAX) parser.

This file shallowly embeds the parser's source (src/json_sax.py) in Lean:
the character stream `io.TextIOBase` becomes a `List Char` held inside the
lexer state, each mutating Python method becomes a pure function from
state to state, and raised `JSONParserError`s become `Except` errors.
Python `while` loops are written as fuel-indexed recursions; every call
site passes fuel that exceeds the number of remaining input characters,
which bounds the number of loop iterations, so fuel exhaustion is
unreachable and the fueled function agrees with the Python loop.
Python `str.isdigit` is modelled on the ASCII range (the inputs exercised
by the specification are ASCII).
-/

namespace JsonSax

/-- Tokens recognized by the lexer (class `Token` in the source). -/
inductive Token where
  | UNKNOWN
  | BEGIN_ARRAY
  | BEGIN_OBJECT
  | END_ARRAY
  | END_OBJECT
  | LITERAL_FALSE
  | LITERAL_NULL
  | LITERAL_TRUE
  | NAME_SEPARATOR
  | NUMBER_DECIMAL
  | NUMBER_FLOAT
  | NUMBER_INT
  | STRING
  | VALUE_SEPARATOR
  deriving DecidableEq, Repr

/-- Literal token subkinds (class `LiteralTokenKind`). -/
inductive LiteralTokenKind where
  | LT_UNKNOWN
  | LT_FALSE
  | LT_NULL
  | LT_TRUE
  deriving DecidableEq, Repr

/-- Numeric token subkinds (class `NumericTokenKind`). -/
inductive NumericTokenKind where
  | NT_UNKNOWN
  | NT_INTEGER
  | NT_DECIMAL
  | NT_FLOAT
  deriving DecidableEq, Repr

/-- Text position: 1-based line, column starting at 0 (class `TextPos`). -/
structure TextPos where
  line : Nat
  col : Nat
  deriving DecidableEq, Repr

namespace JSONParserMessage

def ERR_INVALID_LITERAL_FMT : Nat := 1010
def ERR_INVALID_NUMBER : Nat := 1020
def ERR_UNALLOWED_CHAR_FMT : Nat := 1030
def ERR_UNALLOWED_ESCAPE_SEQ : Nat := 1040
def ERR_UNCLOSED_STRING : Nat := 1050
def ERR_UNEXPECTED_CHAR_FMT : Nat := 1060
def ERR_UNRECOGNIZED_ESCAPE_SEQ_FMT : Nat := 1070
def ERR_EXPECTED_ARRAY : Nat := 2100
def ERR_EXPECTED_ARRAY_ITEM : Nat := 2105
def ERR_EXPECTED_EOF : Nat := 2107
def ERR_EXPECTED_LITERAL : Nat := 2110
def ERR_EXPECTED_MEMBER_NAME : Nat := 2112
def ERR_EXPECTED_NAME_SEPARATOR : Nat := 2014
def ERR_EXPECTED_NUMBER : Nat := 2116
def ERR_EXPECTED_OBJECT : Nat := 2120
def ERR_EXPECTED_STRING : Nat := 2125
def ERR_EXPECTED_VALUE : Nat := 2150
def ERR_EXPECTED_VALUE_BUT_FOUND_FMT : Nat := 2155
def ERR_MEMBER_NAME_DUPLICATE_FMT : Nat := 2200
def ERR_MEMBER_NAME_IS_EMPTY : Nat := 2205
def ERR_PARENT_IS_NOT_CONTAINER : Nat := 2250
def ERR_UNCLOSED_ARRAY : Nat := 2290
def ERR_UNCLOSED_OBJECT : Nat := 2295
def ERR_UNEXPECTED_LEXEME_FMT : Nat := 2300
def ERR_UNEXPECTED_TEXT_END : Nat := 2310
def ERR_UNSUPPORTED_DOM_VALUE_TYPE_FMT : Nat := 2400

/-- The `_MESSAGES` table. In the source the parser-level constants are
actually one-element tuples because of trailing commas in the class body;
that quirk is invisible to behaviour (the same constant objects are used
as dict keys and raise arguments throughout), so the ids are modelled as
the underlying numbers. Braces of the Python format placeholders are kept
as escaped brace characters. -/
def MESSAGES : List (Nat × String) :=
  [ (ERR_UNALLOWED_ESCAPE_SEQ, "Unallowed escape sequention"),
    (ERR_INVALID_LITERAL_FMT, "Invalid literal: \x7b\x7d"),
    (ERR_INVALID_NUMBER, "Invalid number"),
    (ERR_UNALLOWED_CHAR_FMT, "Unallowed char"),
    (ERR_UNCLOSED_STRING, "Unclosed string"),
    (ERR_UNEXPECTED_CHAR_FMT, "Unexpected character: \x7b\x7d"),
    (ERR_UNRECOGNIZED_ESCAPE_SEQ_FMT, "Unrecognized escape sequence: \x7b\x7d"),
    (ERR_EXPECTED_ARRAY, "Array expected"),
    (ERR_EXPECTED_ARRAY_ITEM, "Array item expected"),
    (ERR_EXPECTED_EOF, "End of document expected"),
    (ERR_EXPECTED_LITERAL, "Literal expected"),
    (ERR_EXPECTED_MEMBER_NAME, "Object member name expected"),
    (ERR_EXPECTED_NAME_SEPARATOR, "Name separator expected"),
    (ERR_EXPECTED_NUMBER, "Number expected"),
    (ERR_EXPECTED_OBJECT, "Object expected"),
    (ERR_EXPECTED_STRING, "String expected"),
    (ERR_EXPECTED_VALUE, "Expected value"),
    (ERR_EXPECTED_VALUE_BUT_FOUND_FMT, "Expected value but found"),
    (ERR_MEMBER_NAME_DUPLICATE_FMT, "Duplicate member name"),
    (ERR_MEMBER_NAME_IS_EMPTY, "Member name is empty"),
    (ERR_PARENT_IS_NOT_CONTAINER, "Parent DOM value is not container"),
    (ERR_UNCLOSED_ARRAY, "Unclosed array"),
    (ERR_UNCLOSED_OBJECT, "Unclosed object"),
    (ERR_UNEXPECTED_LEXEME_FMT, "Unexpected"),
    (ERR_UNEXPECTED_TEXT_END, "Unexpected end of text"),
    (ERR_UNSUPPORTED_DOM_VALUE_TYPE_FMT, "Unsupported DOM value type") ]

/-- `JSONParserMessage.text`-style lookup: `some` message when the id is in
the table (the Python version falls back to an "Unknown message ID" string
exactly when this returns `none`). -/
def lookup (msg_id : Nat) : Option String :=
  (MESSAGES.find? (fun p => p.1 = msg_id)).map (·.2)

end JSONParserMessage

/-- The one error type every lexing/parsing failure carries
(class `JSONParserError`): a position and a message id. The Python object
also stores the formatted message string rendered from `msg_id` via the
message table; the table lookup is modelled by `JSONParserMessage.lookup`. -/
structure JSONParserError where
  pos : TextPos
  msg_id : Nat
  deriving DecidableEq, Repr

/-- A recognized lexical unit (class `Lexeme`). -/
structure Lexeme where
  pos : TextPos
  token : Token
  text : List Char
  literal_kind : LiteralTokenKind
  numeric_kind : NumericTokenKind
  deriving DecidableEq, Repr

/-- The numeric grammar state machine (class `NumericParser`). -/
structure NumericParser where
  char_count : Nat
  digit_count : Nat
  numtype : NumericTokenKind
  accepting_type : NumericTokenKind
  value : List Char
  deriving DecidableEq, Repr

namespace NumericParser

/-- `NumericParser.__init__`. -/
def init : NumericParser :=
  { char_count := 0, digit_count := 0, numtype := .NT_UNKNOWN,
    accepting_type := .NT_INTEGER, value := [] }

/-- `NumericParser.accept`. -/
def accept (np : NumericParser) (c : Char) : NumericParser :=
  { np with char_count := np.char_count + 1, value := np.value ++ [c] }

/-- `NumericParser.read_char`. Returns the Python return value paired with
the updated machine. Note the `'-'` branch of the source has no `else`
clause: when `char_count ≠ 0` it falls through to the final `return True`
without calling `accept`, silently consuming the character. -/
def read_char (np : NumericParser) (c : Char) : Bool × NumericParser :=
  if c = '-' then
    if np.char_count = 0 then (true, np.accept c) else (true, np)
  else if c = '+' then
    if np.accepting_type = .NT_FLOAT ∧ np.char_count = 0 then (true, np.accept c)
    else (false, np)
  else if c = '.' then
    if np.accepting_type = .NT_INTEGER ∧ 0 < np.digit_count then
      (true, { np.accept c with accepting_type := .NT_DECIMAL, numtype := .NT_UNKNOWN })
    else (false, np)
  else if c.isDigit then
    if np.accepting_type = .NT_INTEGER ∧ np.digit_count = 1 ∧ np.value = ['0'] then
      (false, { np with numtype := .NT_UNKNOWN })
    else
      (true, { np.accept c with digit_count := np.digit_count + 1, numtype := np.accepting_type })
  else if c = 'e' ∨ c = 'E' then
    if np.accepting_type = .NT_INTEGER ∨ np.accepting_type = .NT_DECIMAL then
      (true, { np.accept c with
               char_count := 0, digit_count := 0,
               numtype := .NT_UNKNOWN, accepting_type := .NT_FLOAT })
    else (false, { np with numtype := .NT_UNKNOWN })
  else (false, np)

/-- `read_char` applied to the lexer's current character, which in Python is
a one-character string that is empty at end of stream; the empty string
matches no branch and is rejected without touching the machine. -/
def read_cur (np : NumericParser) : Option Char → Bool × NumericParser
  | some c => np.read_char c
  | none => (false, np)

end NumericParser

namespace Lexer

/-- `Lexer.is_digit` / membership in `DEC_DIGITS` (ASCII model of
Python `str.isdigit`). -/
def is_digit (c : Char) : Bool := c.isDigit

/-- `Lexer.is_hex_digit`. -/
def is_hex_digit (c : Char) : Bool :=
  c.isDigit ∨ c = 'a' ∨ c = 'A' ∨ c = 'b' ∨ c = 'B' ∨ c = 'c' ∨ c = 'C' ∨
  c = 'd' ∨ c = 'D' ∨ c = 'e' ∨ c = 'E' ∨ c = 'f' ∨ c = 'F'

/-- Membership in `DEC_DIGITS_S` (digits plus the two signs). -/
def is_dec_digit_s (c : Char) : Bool := c.isDigit ∨ c = '-' ∨ c = '+'

/-- The `STRUCTURALS` table. -/
def structural_token (c : Char) : Option Token :=
  if c = '[' then some .BEGIN_ARRAY
  else if c = '\x7b' then some .BEGIN_OBJECT
  else if c = ']' then some .END_ARRAY
  else if c = '\x7d' then some .END_OBJECT
  else if c = ':' then some .NAME_SEPARATOR
  else if c = ',' then some .VALUE_SEPARATOR
  else none

/-- `Lexer.is_structural`. -/
def is_structural (c : Char) : Bool := (structural_token c).isSome

/-- `Lexer.is_whitespace` / the `WHITESPACES` set. -/
def is_whitespace (c : Char) : Bool :=
  c = ' ' ∨ c = '\t' ∨ c = '\r' ∨ c = '\n'

/-- Membership in `LITERAL_PREFIXES`. -/
def is_literal_head (c : Char) : Bool := c = 'f' ∨ c = 'n' ∨ c = 't'

/-- The `ESCAPE_CHARS` table. -/
def escape_char (c : Char) : Option Char :=
  if c = '"' then some '"'
  else if c = '\\' then some '\\'
  else if c = '/' then some '/'
  else if c = 'b' then some '\x08'
  else if c = 'f' then some '\x0c'
  else if c = 'n' then some '\n'
  else if c = 'r' then some '\r'
  else if c = 't' then some '\t'
  else none

/-- A predicate on the lexer's current character, which may be absent
(the Python empty string, before the first read and at end of stream);
any set membership or comparison on the empty string is false. -/
def opt_is (p : Char → Bool) : Option Char → Bool
  | some c => p c
  | none => false

end Lexer

/-- The mutable state of class `Lexer`: the unread part of the input
stream, the `_eof` flag, the `_initial` flag, the current character `_c`
(`none` for Python's empty string), the `_c_accepted` flag and the
position tracker `_pos`. -/
structure LexerState where
  input : List Char
  eof : Bool
  initial : Bool
  c : Option Char
  cAccepted : Bool
  pos : TextPos
  deriving DecidableEq, Repr

namespace Lexer

/-- `Lexer.__init__` wrapping a fresh reader over `input`. -/
def init_lexer (input : List Char) : LexerState :=
  { input := input, eof := false, initial := true, c := none,
    cAccepted := false, pos := ⟨1, 0⟩ }

/-- `Lexer.next_char`: reads one character; on success updates position
(applying the newline effect of the previously consumed character first)
and clears `_c_accepted`; at end of stream sets `_eof`, makes the current
character empty and returns false without touching position or
`_c_accepted`. -/
def next_char (s : LexerState) : Bool × LexerState :=
  let is_new_line := s.c = some '\n'
  match s.input with
  | [] => (false, { s with c := none, eof := true })
  | ch :: rest =>
    let p := if is_new_line then TextPos.mk (s.pos.line + 1) 0 else s.pos
    (true, { s with
             input := rest, c := some ch, eof := false, cAccepted := false,
             pos := TextPos.mk p.line (p.col + 1) })

/-- `Lexer.skip_whitespaces` (fueled while loop). -/
def skip_whitespaces : Nat → LexerState → LexerState
  | 0, s => s
  | fuel + 1, s =>
    if opt_is is_whitespace s.c then
      skip_whitespaces fuel (next_char { s with cAccepted := true }).2
    else s

/-- The value-accumulating while loop of `Lexer.handle_literal`. -/
def literal_value_loop : Nat → List Char → LexerState → List Char × LexerState
  | 0, value, s => (value, s)
  | fuel + 1, value, s =>
    let r := next_char s
    if r.1 then
      match r.2.c with
      | some ch =>
        if is_whitespace ch ∨ is_structural ch then (value, r.2)
        else literal_value_loop fuel (value ++ [ch]) { r.2 with cAccepted := true }
      | none => (value, r.2)
    else (value, r.2)

/-- `Lexer.handle_literal`. -/
def handle_literal (s : LexerState) : Except JSONParserError (Lexeme × LexerState) :=
  let pos := s.pos
  let value0 : List Char := match s.c with | some c => [c] | none => []
  let r := literal_value_loop (s.input.length + 2) value0 { s with cAccepted := true }
  if r.1 = "false".toList then
    .ok (⟨pos, .LITERAL_FALSE, r.1, .LT_FALSE, .NT_UNKNOWN⟩, r.2)
  else if r.1 = "null".toList then
    .ok (⟨pos, .LITERAL_NULL, r.1, .LT_NULL, .NT_UNKNOWN⟩, r.2)
  else if r.1 = "true".toList then
    .ok (⟨pos, .LITERAL_TRUE, r.1, .LT_TRUE, .NT_UNKNOWN⟩, r.2)
  else .error ⟨pos, JSONParserMessage.ERR_INVALID_LITERAL_FMT⟩

/-- The feeding while loop of `Lexer.handle_number`: feed the current
character to the machine; while it is accepted, mark it consumed and read
the next one. -/
def numeric_scan : Nat → NumericParser → LexerState → NumericParser × LexerState
  | 0, np, s => (np, s)
  | fuel + 1, np, s =>
    let rc := np.read_cur s.c
    if rc.1 then
      let r := next_char { s with cAccepted := true }
      if r.1 then numeric_scan fuel rc.2 r.2 else (rc.2, r.2)
    else (rc.2, s)

/-- `Lexer.handle_number`. -/
def handle_number (s : LexerState) : Except JSONParserError (Lexeme × LexerState) :=
  let pos := s.pos
  let r := numeric_scan (s.input.length + 2) NumericParser.init s
  let np := r.1
  let s' := r.2
  let tk : Option (Token × NumericTokenKind) :=
    if np.numtype = .NT_DECIMAL then some (.NUMBER_DECIMAL, .NT_DECIMAL)
    else if np.numtype = .NT_FLOAT then some (.NUMBER_FLOAT, .NT_FLOAT)
    else if np.numtype = .NT_INTEGER then some (.NUMBER_INT, .NT_INTEGER)
    else none
  match tk with
  | none => .error ⟨s'.pos, JSONParserMessage.ERR_INVALID_NUMBER⟩
  | some (tok, nk) =>
    if s'.cAccepted ∨ opt_is is_whitespace s'.c ∨ opt_is is_structural s'.c then
      .ok (⟨pos, tok, np.value, .LT_UNKNOWN, nk⟩, s')
    else .error ⟨s'.pos, JSONParserMessage.ERR_INVALID_NUMBER⟩

/-- The four-round hex digit loop of `Lexer.handle_escaped_char`. -/
def hex_value_loop : Nat → List Char → LexerState → TextPos →
    Except JSONParserError (List Char × LexerState)
  | 0, value, s, _ => .ok (value, s)
  | i + 1, value, s, start =>
    let r := next_char s
    if r.1 ∧ opt_is is_hex_digit r.2.c then
      match r.2.c with
      | some ch => hex_value_loop i (value ++ [ch]) { r.2 with cAccepted := true } start
      | none => .error ⟨start, JSONParserMessage.ERR_UNALLOWED_ESCAPE_SEQ⟩
    else .error ⟨start, JSONParserMessage.ERR_UNALLOWED_ESCAPE_SEQ⟩

/-- Numeric value of a hex digit character. -/
def hex_digit_val (c : Char) : Nat :=
  if c.isDigit then c.toNat - '0'.toNat
  else if c = 'a' ∨ c = 'b' ∨ c = 'c' ∨ c = 'd' ∨ c = 'e' ∨ c = 'f' then c.toNat - 'a'.toNat + 10
  else if c = 'A' ∨ c = 'B' ∨ c = 'C' ∨ c = 'D' ∨ c = 'E' ∨ c = 'F' then c.toNat - 'A'.toNat + 10
  else 0

/-- `int(value, base = 16)` on the four collected hex digits. -/
def hex_string_val (value : List Char) : Nat :=
  value.foldl (fun acc c => 16 * acc + hex_digit_val c) 0

/-- `Lexer.handle_escaped_char`: reads exactly 4 hex digits after `\u` and
decodes them (`chr(code)` is modelled by `Char.ofNat`; codes in the
surrogate range, which Python's `chr` admits as lone surrogates, fall to
`Char.ofNat`'s default and are outside the scope of the claims). On any
missing or non-hex digit, fails at `start` — the position its caller
passes, which is the position of the escape's backslash. -/
def handle_escaped_char (s : LexerState) (start : TextPos) :
    Except JSONParserError (Char × LexerState) :=
  match hex_value_loop 4 [] s start with
  | .error e => .error e
  | .ok (value, s') => .ok (Char.ofNat (hex_string_val value), s')

/-- The scanning while loop of `Lexer.handle_string`. -/
def string_scan : Nat → TextPos → List Char → LexerState →
    Except JSONParserError (Lexeme × LexerState)
  | 0, _, _, s => .error ⟨s.pos, JSONParserMessage.ERR_UNCLOSED_STRING⟩
  | fuel + 1, start_pos, value, s =>
    let r := next_char s
    if r.1 then
      match r.2.c with
      | some ch =>
        if ch = '"' then
          .ok (⟨start_pos, .STRING, value, .LT_UNKNOWN, .NT_UNKNOWN⟩, { r.2 with cAccepted := true })
        else if ch = '\\' then
          let pos := r.2.pos
          let r2 := next_char r.2
          if r2.1 then
            match r2.2.c with
            | some ch2 =>
              match escape_char ch2 with
              | some ec => string_scan fuel start_pos (value ++ [ec]) { r2.2 with cAccepted := true }
              | none =>
                if ch2 = 'u' then
                  match handle_escaped_char r2.2 pos with
                  | .error e => .error e
                  | .ok (dc, s3) => string_scan fuel start_pos (value ++ [dc]) s3
                else .error ⟨pos, JSONParserMessage.ERR_UNRECOGNIZED_ESCAPE_SEQ_FMT⟩
            | none => .error ⟨pos, JSONParserMessage.ERR_UNCLOSED_STRING⟩
          else .error ⟨pos, JSONParserMessage.ERR_UNCLOSED_STRING⟩
        else string_scan fuel start_pos (value ++ [ch]) { r.2 with cAccepted := true }
      | none => .error ⟨r.2.pos, JSONParserMessage.ERR_UNCLOSED_STRING⟩
    else .error ⟨r.2.pos, JSONParserMessage.ERR_UNCLOSED_STRING⟩

/-- `Lexer.handle_string`. -/
def handle_string (s : LexerState) : Except JSONParserError (Lexeme × LexerState) :=
  string_scan (s.input.length + 2) s.pos [] s

/-- The token dispatch of `Lexer.next_lexeme` after the initial read and
whitespace skipping. -/
def next_lexeme_core (s : LexerState) : Except JSONParserError (Option Lexeme × LexerState) :=
  let s2 := skip_whitespaces (s.input.length + 2) s
  if s2.cAccepted = false then
    match s2.c with
    | some c =>
      let pos := s2.pos
      if c = '"' then
        match handle_string s2 with
        | .error e => .error e
        | .ok (lex, st) => .ok (some lex, st)
      else if is_dec_digit_s c then
        match handle_number s2 with
        | .error e => .error e
        | .ok (lex, st) => .ok (some lex, st)
      else
        match structural_token c with
        | some tok => .ok (some ⟨pos, tok, [c], .LT_UNKNOWN, .NT_UNKNOWN⟩, { s2 with cAccepted := true })
        | none =>
          if is_literal_head c then
            match handle_literal s2 with
            | .error e => .error e
            | .ok (lex, st) => .ok (some lex, st)
          else .error ⟨pos, JSONParserMessage.ERR_UNEXPECTED_CHAR_FMT⟩
    | none => .error ⟨s2.pos, JSONParserMessage.ERR_UNEXPECTED_CHAR_FMT⟩
  else
    if s2.eof then .ok (none, s2)
    else .error ⟨s2.pos, JSONParserMessage.ERR_UNEXPECTED_CHAR_FMT⟩

/-- `Lexer.next_lexeme`: `none` is Python's `None` end-of-stream result. -/
def next_lexeme (s : LexerState) : Except JSONParserError (Option Lexeme × LexerState) :=
  if s.cAccepted ∨ s.initial then
    let r := next_char s
    if r.1 then next_lexeme_core { r.2 with initial := false }
    else .ok (none, r.2)
  else next_lexeme_core { s with initial := false }

end Lexer

/-- One handler callback of the `SAXHandlerIntf` contract, recorded as
data: the parser drives an arbitrary (non-raising) handler by producing
this event sequence in call order; a concrete handler is a fold over it. -/
inductive SAXEvent where
  | on_literal (kind : LiteralTokenKind) (text : List Char)
  | on_number (kind : NumericTokenKind) (text : List Char)
  | on_string (text : List Char)
  | on_begin_object
  | on_member_name (text : List Char)
  | on_end_object (member_count : Nat)
  | on_begin_array
  | on_end_array (element_count : Nat)
  | textpos_changed (pos : TextPos)
  deriving DecidableEq, Repr

/-- The mutable state of class `SAXParser`: its lexer, the current lexeme
`_curr` (`none` both before the first lexeme and at end of stream — the
initial dummy lexeme of the source has token `UNKNOWN` and is
indistinguishable from `none` through `_curr_token`), and the handler
calls made so far. -/
structure ParserState where
  lx : LexerState
  curr : Option Lexeme
  events : List SAXEvent
  deriving DecidableEq, Repr

namespace SAXParser

/-- Errors of the fueled parser: a raised `JSONParserError`, or fuel
exhaustion (an artifact of the embedding; top-level fuel is chosen above
the recursion the input length can drive). -/
inductive PErr where
  | out_of_fuel
  | err (e : JSONParserError)
  deriving DecidableEq, Repr

/-- `SAXParser._curr_token`. -/
def curr_token (p : ParserState) : Token :=
  match p.curr with
  | none => .UNKNOWN
  | some lex => lex.token

/-- Record one handler call. -/
def emit (p : ParserState) (ev : SAXEvent) : ParserState :=
  { p with events := p.events ++ [ev] }

/-- `SAXParser.next_lexeme`: pulls a lexeme, stores it as current and
notifies the handler of the lexer's position after the pull. -/
def next_lexeme (p : ParserState) : Except JSONParserError (Bool × ParserState) :=
  match Lexer.next_lexeme p.lx with
  | .error e => .error e
  | .ok (some lex, lx') =>
    .ok (true, { lx := lx', curr := some lex,
                 events := p.events ++ [.textpos_changed lx'.pos] })
  | .ok (none, lx') => .ok (false, { lx := lx', curr := none, events := p.events })

/-- `SAXParser.parse_literal`. -/
def parse_literal (p : ParserState) : Except PErr ParserState :=
  match p.curr with
  | some lex =>
    if lex.token = .LITERAL_FALSE ∨ lex.token = .LITERAL_NULL ∨ lex.token = .LITERAL_TRUE then
      .ok (emit p (.on_literal lex.literal_kind lex.text))
    else .error (.err ⟨p.lx.pos, JSONParserMessage.ERR_EXPECTED_LITERAL⟩)
  | none => .error (.err ⟨p.lx.pos, JSONParserMessage.ERR_EXPECTED_LITERAL⟩)

/-- `SAXParser.parse_number`: decimal and float tokens are both reported
to the handler as `NT_FLOAT`. -/
def parse_number (p : ParserState) : Except PErr ParserState :=
  match p.curr with
  | some lex =>
    if lex.token = .NUMBER_DECIMAL ∨ lex.token = .NUMBER_FLOAT then
      .ok (emit p (.on_number .NT_FLOAT lex.text))
    else if lex.token = .NUMBER_INT then
      .ok (emit p (.on_number .NT_INTEGER lex.text))
    else .error (.err ⟨p.lx.pos, JSONParserMessage.ERR_EXPECTED_NUMBER⟩)
  | none => .error (.err ⟨p.lx.pos, JSONParserMessage.ERR_EXPECTED_NUMBER⟩)

/-- `SAXParser.parse_string`. -/
def parse_string (p : ParserState) : Except PErr ParserState :=
  match p.curr with
  | some lex =>
    if lex.token = .STRING then .ok (emit p (.on_string lex.text))
    else .error (.err ⟨p.lx.pos, JSONParserMessage.ERR_EXPECTED_STRING⟩)
  | none => .error (.err ⟨p.lx.pos, JSONParserMessage.ERR_EXPECTED_STRING⟩)

/-- The common tail of `SAXParser.parse_array`: require `END_ARRAY` as the
current token, else raise unclosed-array at the lexer's current position
(the source takes `self._curr_pos()` here, not the array's opening
position). -/
def end_array_check (n : Nat) (p : ParserState) : Except PErr ParserState :=
  if curr_token p = .END_ARRAY then .ok (emit p (.on_end_array n))
  else .error (.err ⟨p.lx.pos, JSONParserMessage.ERR_UNCLOSED_ARRAY⟩)

/-- The common tail of `SAXParser.parse_object`: unlike the array case the
unclosed-object error is raised at `start_pos`, the position saved when
the object parse began. -/
def end_object_check (start_pos : TextPos) (n : Nat) (p : ParserState) :
    Except PErr ParserState :=
  if curr_token p = .END_OBJECT then .ok (emit p (.on_end_object n))
  else .error (.err ⟨start_pos, JSONParserMessage.ERR_UNCLOSED_OBJECT⟩)

mutual

/-- `SAXParser.parse_value`. -/
def parse_value : Nat → ParserState → Except PErr ParserState
  | 0, _ => .error .out_of_fuel
  | fuel + 1, p =>
    if curr_token p = .BEGIN_ARRAY then parse_array fuel p
    else if curr_token p = .BEGIN_OBJECT then parse_object fuel p
    else if curr_token p = .LITERAL_FALSE ∨ curr_token p = .LITERAL_NULL ∨
            curr_token p = .LITERAL_TRUE then parse_literal p
    else if curr_token p = .NUMBER_DECIMAL ∨ curr_token p = .NUMBER_FLOAT ∨
            curr_token p = .NUMBER_INT then parse_number p
    else if curr_token p = .STRING then parse_string p
    else .error (.err ⟨p.lx.pos, JSONParserMessage.ERR_EXPECTED_VALUE_BUT_FOUND_FMT⟩)

/-- `SAXParser.parse_array`. -/
def parse_array : Nat → ParserState → Except PErr ParserState
  | 0, _ => .error .out_of_fuel
  | fuel + 1, p =>
    if curr_token p = .BEGIN_ARRAY then
      let p0 := emit p .on_begin_array
      match next_lexeme p0 with
      | .error e => .error (.err e)
      | .ok (b, p1) =>
        if b ∧ curr_token p1 ≠ .END_ARRAY then
          match parse_array_items fuel 0 p1 with
          | .error e => .error e
          | .ok (n, p2) => end_array_check n p2
        else end_array_check 0 p1
    else .error (.err ⟨p.lx.pos, JSONParserMessage.ERR_EXPECTED_ARRAY⟩)

/-- The while loop of `SAXParser.parse_array_items`. -/
def parse_array_items : Nat → Nat → ParserState → Except PErr (Nat × ParserState)
  | 0, _, _ => .error .out_of_fuel
  | fuel + 1, count, p =>
    match parse_value fuel p with
    | .error e => .error e
    | .ok p1 =>
      match next_lexeme p1 with
      | .error e => .error (.err e)
      | .ok (b, p2) =>
        if b ∧ curr_token p2 = .VALUE_SEPARATOR then
          match next_lexeme p2 with
          | .error e => .error (.err e)
          | .ok (b2, p3) =>
            if b2 then parse_array_items fuel (count + 1) p3
            else .error (.err ⟨p3.lx.pos, JSONParserMessage.ERR_EXPECTED_ARRAY_ITEM⟩)
        else .ok (count + 1, p2)

/-- `SAXParser.parse_object`. -/
def parse_object : Nat → ParserState → Except PErr ParserState
  | 0, _ => .error .out_of_fuel
  | fuel + 1, p =>
    if curr_token p = .BEGIN_OBJECT then
      let start_pos := p.lx.pos
      let p0 := emit p .on_begin_object
      match next_lexeme p0 with
      | .error e => .error (.err e)
      | .ok (b, p1) =>
        if b ∧ curr_token p1 ≠ .END_OBJECT then
          match parse_object_members fuel 0 p1 with
          | .error e => .error e
          | .ok (n, p2) => end_object_check start_pos n p2
        else end_object_check start_pos 0 p1
    else .error (.err ⟨p.lx.pos, JSONParserMessage.ERR_EXPECTED_OBJECT⟩)

/-- The while loop of `SAXParser.parse_object_members`. -/
def parse_object_members : Nat → Nat → ParserState → Except PErr (Nat × ParserState)
  | 0, _, _ => .error .out_of_fuel
  | fuel + 1, count, p =>
    match p.curr with
    | some lex =>
      if lex.token = .STRING then
        let p0 := emit p (.on_member_name lex.text)
        match next_lexeme p0 with
        | .error e => .error (.err e)
        | .ok (b, p1) =>
          if b ∧ curr_token p1 = .NAME_SEPARATOR then
            match next_lexeme p1 with
            | .error e => .error (.err e)
            | .ok (b2, p2) =>
              if b2 then
                match parse_value fuel p2 with
                | .error e => .error e
                | .ok p3 =>
                  match next_lexeme p3 with
                  | .error e => .error (.err e)
                  | .ok (b3, p4) =>
                    if b3 ∧ curr_token p4 = .VALUE_SEPARATOR then
                      match next_lexeme p4 with
                      | .error e => .error (.err e)
                      | .ok (b4, p5) =>
                        if b4 then parse_object_members fuel (count + 1) p5
                        else .error (.err ⟨p5.lx.pos, JSONParserMessage.ERR_EXPECTED_MEMBER_NAME⟩)
                    else .ok (count + 1, p4)
              else .error (.err ⟨p2.lx.pos, JSONParserMessage.ERR_EXPECTED_VALUE⟩)
          else .error (.err ⟨p1.lx.pos, JSONParserMessage.ERR_EXPECTED_NAME_SEPARATOR⟩)
      else .error (.err ⟨p.lx.pos, JSONParserMessage.ERR_EXPECTED_MEMBER_NAME⟩)
    | none => .error (.err ⟨p.lx.pos, JSONParserMessage.ERR_EXPECTED_MEMBER_NAME⟩)

end

/-- The tail of `SAXParser.parse_doc`: after the top-level value, one more
lexeme is pulled but its boolean result is discarded; only then is the
`eof` flag consulted, so a trailing lexeme whose scan reached the end of
the stream slips through without an error. -/
def parse_doc_end (p : ParserState) : Except PErr ParserState :=
  match next_lexeme p with
  | .error e => .error (.err e)
  | .ok (_, p2) =>
    if p2.lx.eof = false then
      match next_lexeme p2 with
      | .error e => .error (.err e)
      | .ok (b2, p3) =>
        if b2 then .error (.err ⟨p3.lx.pos, JSONParserMessage.ERR_UNEXPECTED_LEXEME_FMT⟩)
        else .error (.err ⟨p3.lx.pos, JSONParserMessage.ERR_EXPECTED_EOF⟩)
    else .ok p2

/-- `SAXParser.parse_doc`. -/
def parse_doc : Nat → ParserState → Except PErr ParserState
  | 0, _ => .error .out_of_fuel
  | fuel + 1, p =>
    match next_lexeme p with
    | .error e => .error (.err e)
    | .ok (b, p1) =>
      if b then
        match parse_value fuel p1 with
        | .error e => .error e
        | .ok p2 => parse_doc_end p2
      else
        if p1.lx.eof then .ok p1
        else parse_doc_end p1

/-- `SAXParser.__init__` over a fresh input. -/
def parser_init (input : List Char) : ParserState :=
  { lx := Lexer.init_lexer input, curr := none, events := [] }

/-- `SAXParser.run`: one whole parse of the given input. The fuel exceeds
any recursion depth the input can drive. -/
def run (input : List Char) : Except PErr ParserState :=
  parse_doc (2 * input.length + 8) (parser_init input)

end SAXParser

/-!  The basic in-memory handler (`SimpleStack`, `SAXHandlerBasic`),
modelled as a fold of the event sequence over the value stack.  Python
values built by the handler: `None`, `bool`, `int(text)`, `float(text)`,
`str`, `list`, `dict`.  A float is represented by the literal text it was
parsed from: equal texts denote equal Python floats, which is the only
fact about floats the claims need.  A dict is an insertion-ordered
association list with Python's `d[k] = v` update semantics. -/

mutual
inductive PyValue where
  | pynone
  | pybool (b : Bool)
  | pyint (n : Int)
  | pyfloat (text : List Char)
  | pystr (s : List Char)
  | pylist (l : PyList)
  | pydict (d : PyDict)
  deriving DecidableEq, Repr
inductive PyList where
  | nil
  | cons (hd : PyValue) (tl : PyList)
  deriving DecidableEq, Repr
inductive PyDict where
  | nil
  | cons (key : PyValue) (val : PyValue) (tl : PyDict)
  deriving DecidableEq, Repr
end

/-- Handler-side failures (`JSONError` in the source). -/
structure JSONError where
  note : String
  deriving DecidableEq, Repr

namespace SAXHandlerBasic

/-- `int(text)` on a valid (optionally minus-signed) decimal integer
token. -/
def py_int_of (t : List Char) : Int :=
  let digits_val : List Char → Nat := fun ds =>
    ds.foldl (fun acc c => 10 * acc + (c.toNat - '0'.toNat)) 0
  match t with
  | '-' :: rest => -(digits_val rest : Int)
  | _ => (digits_val t : Int)

/-- Python `obj[name] = value` on the insertion-ordered dict model:
replace in place when the key exists, else append. -/
def dict_setitem (d : PyDict) (k v : PyValue) : PyDict :=
  match d with
  | .nil => .cons k v .nil
  | .cons k0 v0 tl => if k0 = k then .cons k v tl else .cons k0 v0 (dict_setitem tl k v)

/-- The member-popping loop of `SAXHandlerBasic.on_end_object`: pop a
value then its name, insert into the object. The stack is modelled with
its top at the head. -/
def end_object_fold : Nat → PyDict → List PyValue →
    Except JSONError (PyDict × List PyValue)
  | 0, obj, st => .ok (obj, st)
  | n + 1, obj, st =>
    match st with
    | value :: name :: rest => end_object_fold n (dict_setitem obj name value) rest
    | _ => .error ⟨"stack underflow"⟩

/-- The element-popping loop of `SAXHandlerBasic.on_end_array`
(`array.insert(0, pop())`). -/
def end_array_fold : Nat → PyList → List PyValue →
    Except JSONError (PyList × List PyValue)
  | 0, arr, st => .ok (arr, st)
  | n + 1, arr, st =>
    match st with
    | top :: rest => end_array_fold n (.cons top arr) rest
    | [] => .error ⟨"stack underflow"⟩

/-- One handler callback of `SAXHandlerBasic` applied to its stack. -/
def on_event (st : List PyValue) : SAXEvent → Except JSONError (List PyValue)
  | .on_literal kind _ =>
    match kind with
    | .LT_FALSE => .ok (.pybool false :: st)
    | .LT_TRUE => .ok (.pybool true :: st)
    | .LT_NULL => .ok (.pynone :: st)
    | .LT_UNKNOWN => .error ⟨"Unsupported literal kind"⟩
  | .on_number kind text =>
    match kind with
    | .NT_INTEGER => .ok (.pyint (py_int_of text) :: st)
    | .NT_DECIMAL => .ok (.pyfloat text :: st)
    | .NT_FLOAT => .ok (.pyfloat text :: st)
    | .NT_UNKNOWN => .error ⟨"Unsupported number kind"⟩
  | .on_string text => .ok (.pystr text :: st)
  | .on_begin_object => .ok st
  | .on_member_name text => .ok (.pystr text :: st)
  | .on_end_object n =>
    if n * 2 > st.length then .error ⟨"Element count is greater than stack size"⟩
    else
      match end_object_fold n .nil st with
      | .error e => .error e
      | .ok (obj, st') => .ok (.pydict obj :: st')
  | .on_begin_array => .ok st
  | .on_end_array n =>
    if n > st.length then .error ⟨"Element count is greater than stack size"⟩
    else
      match end_array_fold n .nil st with
      | .error e => .error e
      | .ok (arr, st') => .ok (.pylist arr :: st')
  | .textpos_changed _ => .ok st

/-- Fold an event sequence (in call order) over a stack. -/
def apply_events : List SAXEvent → List PyValue → Except JSONError (List PyValue)
  | [], st => .ok st
  | ev :: evs, st =>
    match on_event st ev with
    | .error e => .error e
    | .ok st' => apply_events evs st'

/-- The `SAXHandlerBasic.result` property: destructive read of the single
stacked value (`none` on an empty stack, error on two or more items); the
returned stack is the handler's stack after the read. -/
def result_read (st : List PyValue) : Except JSONError (Option PyValue × List PyValue) :=
  match st with
  | [] => .ok (none, [])
  | [x] => .ok (some x, [])
  | _ => .error ⟨"Unexpected stack size"⟩

end SAXHandlerBasic

/-- Outcome of `parser.run()` followed by reading `handler.result` on a
fresh `SAXHandlerBasic`. -/
inductive RunOutcome where
  | ok (result : Option PyValue)
  | parser_error (e : JSONParserError)
  | fuel_exhausted
  | handler_error (e : JSONError)
  deriving DecidableEq, Repr

/-- Parse `input` with `SAXParser` driving a fresh `SAXHandlerBasic`, then
read the handler's `result` property once. -/
def parse_to_result (input : List Char) : RunOutcome :=
  match SAXParser.run input with
  | .error .out_of_fuel => .fuel_exhausted
  | .error (.err e) => .parser_error e
  | .ok p =>
    match SAXHandlerBasic.apply_events p.events [] with
    | .error e => .handler_error e
    | .ok st =>
      match SAXHandlerBasic.result_read st with
      | .error e => .handler_error e
      | .ok (r, _) => .ok r

/-- The first lexeme a fresh lexer produces on `input` (test harness). -/
def first_lexeme (input : List Char) : Except JSONParserError (Option Lexeme) :=
  match Lexer.next_lexeme (Lexer.init_lexer input) with
  | .error e => .error e
  | .ok (l, _) => .ok l

/-!  Position tracking (claim C8).  `track_pos` is an independent hand
computation of the cursor over a consumed character sequence: consuming a
character first applies the deferred newline effect of the previously
consumed character (line + 1, column reset to 0), then increments the
column by 1; the flag records whether the character just consumed is a
line feed.  `iter_next_char` iterates the lexer's one-character read. -/

def track_pos : TextPos × Bool → List Char → TextPos × Bool
  | st, [] => st
  | st, ch :: rest =>
    let p := if st.2 then TextPos.mk (st.1.line + 1) 0 else st.1
    track_pos (TextPos.mk p.line (p.col + 1), decide (ch = '\n')) rest

def iter_next_char : Nat → LexerState → LexerState
  | 0, s => s
  | k + 1, s => iter_next_char k (Lexer.next_char s).2


/-!  Claim C9: every failure that escapes a parse is the single error
type `JSONParserError` — in the embedding this is enforced by the result
types themselves — and its message id always has an entry in the message
table, so the rendered message is never the "Unknown message ID"
fallback.  The lemmas below chase every raise site. -/

def known_message (id : Nat) : Bool := (JSONParserMessage.lookup id).isSome


/-- Projection harness for C6: the decoded character together with the
remaining input and the accepted flag after a successful
`handle_escaped_char`, or `none` on failure. -/
def esc_result (s : LexerState) (start : TextPos) : Option (Char × List Char × Bool) :=
  match Lexer.handle_escaped_char s start with
  | .ok (dc, s') => some (dc, s'.input, s'.cAccepted)
  | .error _ => none

/-- Decidable shape check used in C6: does the list start with four hex
digits? -/
def hex4_prefix_ok (l : List Char) : Bool :=
  match l with
  | c1 :: c2 :: c3 :: c4 :: _ =>
    Lexer.is_hex_digit c1 ∧ Lexer.is_hex_digit c2 ∧
    Lexer.is_hex_digit c3 ∧ Lexer.is_hex_digit c4
  | _ => false


/-!  Round-trip harness (claims C2, C3, C10).  A JSON document value, its
canonical (whitespace-free) serialization, the well-formedness conditions
under which that serialization is a well-formed JSON input for this lexer
(number tokens the numeric machine fully accepts, classifies and echoes
verbatim; strings free of the quote and backslash characters; object
member names distinct), and the Python value `SAXHandlerBasic` builds
for it (`to_py`; objects come out with their members in reverse document
order, matching the handler's popping loop). -/

mutual
inductive JValue where
  | jnull
  | jbool (b : Bool)
  | jnum (text : List Char)
  | jstr (text : List Char)
  | jarr (items : JItems)
  | jobj (members : JMembers)
  deriving DecidableEq, Repr
inductive JItems where
  | nil
  | cons (hd : JValue) (tl : JItems)
  deriving DecidableEq, Repr
inductive JMembers where
  | nil
  | cons (name : List Char) (hd : JValue) (tl : JMembers)
  deriving DecidableEq, Repr
end

mutual
def serialize_value : JValue → List Char
  | .jnull => "null".toList
  | .jbool true => "true".toList
  | .jbool false => "false".toList
  | .jnum t => t
  | .jstr t => '"' :: t ++ ['"']
  | .jarr items => '[' :: (serialize_items items ++ [']'])
  | .jobj ms => '\x7b' :: (serialize_members ms ++ ['\x7d'])
def serialize_items : JItems → List Char
  | .nil => []
  | .cons v tl => serialize_value v ++ serialize_items_rest tl
def serialize_items_rest : JItems → List Char
  | .nil => []
  | .cons v tl => ',' :: (serialize_value v ++ serialize_items_rest tl)
def serialize_members : JMembers → List Char
  | .nil => []
  | .cons n v tl => '"' :: n ++ '"' :: ':' :: (serialize_value v ++ serialize_members_rest tl)
def serialize_members_rest : JMembers → List Char
  | .nil => []
  | .cons n v tl =>
    ',' :: ('"' :: n ++ '"' :: ':' :: (serialize_value v ++ serialize_members_rest tl))
end

/-- Feed a whole string into the numeric machine, stopping on rejection
(the feeding pattern of `handle_number`'s loop applied to a known
token text). -/
def np_feed_all : NumericParser → List Char → Option NumericParser
  | np, [] => some np
  | np, c :: rest =>
    let r := np.read_char c
    if r.1 then np_feed_all r.2 rest else none

/-- A valid number token text: the lexer dispatches on its first
character, the machine accepts every character, echoes the text verbatim
into its accumulated value, and ends with a known classification. -/
def num_token_ok (t : List Char) : Bool :=
  (match t with | c :: _ => Lexer.is_dec_digit_s c | [] => false) &&
  (match np_feed_all NumericParser.init t with
   | some np => np.numtype ≠ NumericTokenKind.NT_UNKNOWN ∧ np.value = t
   | none => false)

/-- The machine's final classification of a token text. -/
def num_classify (t : List Char) : NumericTokenKind :=
  match np_feed_all NumericParser.init t with
  | some np => np.numtype
  | none => .NT_UNKNOWN

def tok_of_kind : NumericTokenKind → Token
  | .NT_INTEGER => .NUMBER_INT
  | .NT_DECIMAL => .NUMBER_DECIMAL
  | .NT_FLOAT => .NUMBER_FLOAT
  | .NT_UNKNOWN => .UNKNOWN

/-- String content needing no escaping: no quote, no backslash (every
other character, controls included, passes through the lexer verbatim). -/
def str_ok (t : List Char) : Bool := t.all (fun c => c ≠ '"' ∧ c ≠ '\\')

def member_names : JMembers → List (List Char)
  | .nil => []
  | .cons n _ tl => n :: member_names tl

def names_nodup : List (List Char) → Bool
  | [] => true
  | n :: rest => (!rest.contains n) && names_nodup rest

mutual
def wf_value : JValue → Bool
  | .jnull => true
  | .jbool _ => true
  | .jnum t => num_token_ok t
  | .jstr t => str_ok t
  | .jarr items => wf_items items
  | .jobj ms => wf_members ms && names_nodup (member_names ms)
def wf_items : JItems → Bool
  | .nil => true
  | .cons v tl => wf_value v && wf_items tl
def wf_members : JMembers → Bool
  | .nil => true
  | .cons n v tl => str_ok n && wf_value v && wf_members tl
end

mutual
def to_py : JValue → PyValue
  | .jnull => .pynone
  | .jbool b => .pybool b
  | .jnum t =>
    if num_classify t = .NT_INTEGER then .pyint (SAXHandlerBasic.py_int_of t)
    else .pyfloat t
  | .jstr t => .pystr t
  | .jarr items => .pylist (to_py_items items)
  | .jobj ms => .pydict (to_py_members ms .nil)
def to_py_items : JItems → PyList
  | .nil => .nil
  | .cons v tl => .cons (to_py v) (to_py_items tl)
def to_py_members : JMembers → PyDict → PyDict
  | .nil, acc => acc
  | .cons n v tl, acc => to_py_members tl (.cons (.pystr n) (to_py v) acc)
end

def items_len : JItems → Nat
  | .nil => 0
  | .cons _ tl => items_len tl + 1

def members_len : JMembers → Nat
  | .nil => 0
  | .cons _ _ tl => members_len tl + 1

mutual
def bound_value : JValue → Nat
  | .jnull => 1
  | .jbool _ => 1
  | .jnum _ => 1
  | .jstr _ => 1
  | .jarr items => 2 + bound_items items
  | .jobj ms => 2 + bound_members ms
def bound_items : JItems → Nat
  | .nil => 0
  | .cons v tl => 1 + bound_value v + bound_items tl
def bound_members : JMembers → Nat
  | .nil => 0
  | .cons _ v tl => 1 + bound_value v + bound_members tl
end

/-- The handler stack after the events of each item were applied in
document order. -/
def stack_push_items : JItems → List PyValue → List PyValue
  | .nil, st => st
  | .cons v tl, st => stack_push_items tl (to_py v :: st)

/-- The handler stack after the name and value events of each member were
applied in document order. -/
def stack_push_members : JMembers → List PyValue → List PyValue
  | .nil, st => st
  | .cons n v tl, st => stack_push_members tl (to_py v :: .pystr n :: st)

def pylist_concat : PyList → PyList → PyList
  | .nil, l => l
  | .cons a t, l => .cons a (pylist_concat t l)

def dict_has : PyDict → PyValue → Bool
  | .nil, _ => false
  | .cons k _ tl, key => k = key ∨ dict_has tl key

def dict_concat : PyDict → PyDict → PyDict
  | .nil, d => d
  | .cons k v tl, d => .cons k v (dict_concat tl d)

/-- The dict built by `on_end_object`'s popping loop over the members'
stack entries: the last member is inserted first. -/
def handler_members_fold : JMembers → PyDict → PyDict
  | .nil, obj => obj
  | .cons n v tl, obj =>
    SAXHandlerBasic.dict_setitem (handler_members_fold tl obj) (.pystr n) (to_py v)

/-!  Lexer boundary states. Between lexemes the lexer is in one of a few
shapes: `acc_at` (current character consumed; the remaining stream is all
in `input`; also the fresh-lexer shape with `initial = true`), `pend_at`
(an unconsumed terminator character is pending in `_c`), or `at_eof`
(stream exhausted). `ready_at` is the disjunction a following
`next_lexeme` can start from; `scalar_stop` is where a literal or number
scan leaves the lexer. -/

def ready_at (s : LexerState) (rest : List Char) : Prop :=
  s.eof = false ∧
  (((s.cAccepted = true ∨ s.initial = true) ∧ s.input = rest) ∨
   (s.cAccepted = false ∧ s.initial = false ∧
    ∃ ch rest2, rest = ch :: rest2 ∧ s.c = some ch ∧ s.input = rest2))

def acc_at (s : LexerState) (rest : List Char) : Prop :=
  s.eof = false ∧ s.initial = false ∧ s.cAccepted = true ∧ s.input = rest

def pend_at (s : LexerState) (ch : Char) (rest : List Char) : Prop :=
  s.eof = false ∧ s.initial = false ∧ s.cAccepted = false ∧ s.c = some ch ∧ s.input = rest

def at_eof (s : LexerState) : Prop :=
  s.eof = true ∧ s.c = none ∧ s.cAccepted = true ∧ s.initial = false ∧ s.input = []

def scalar_stop (s : LexerState) (rest : List Char) : Prop :=
  (rest = [] ∧ at_eof s) ∨ ∃ ch rest2, rest = ch :: rest2 ∧ pend_at s ch rest2

def boundary (s : LexerState) (rest : List Char) : Prop :=
  ready_at s rest ∨ (rest = [] ∧ at_eof s)

/-- In the canonical serialization a scalar is always followed by end of
input or by a separator/closer, which is what lets its token scan stop
cleanly. -/
def sep_ok (rest : List Char) : Bool :=
  match rest with
  | [] => true
  | c :: _ => c = ',' ∨ c = ']' ∨ c = '\x7d'

/-- The parser state right after pulling the first lexeme of (the
serialization of) `v` followed by `rest`: the current lexeme is that
first token and the lexer sits at the matching boundary. -/
def value_started (v : JValue) (p : ParserState) (rest : List Char) : Prop :=
  match v with
  | .jnull =>
    (∃ pos, p.curr = some ⟨pos, .LITERAL_NULL, "null".toList, .LT_NULL, .NT_UNKNOWN⟩) ∧
    scalar_stop p.lx rest
  | .jbool true =>
    (∃ pos, p.curr = some ⟨pos, .LITERAL_TRUE, "true".toList, .LT_TRUE, .NT_UNKNOWN⟩) ∧
    scalar_stop p.lx rest
  | .jbool false =>
    (∃ pos, p.curr = some ⟨pos, .LITERAL_FALSE, "false".toList, .LT_FALSE, .NT_UNKNOWN⟩) ∧
    scalar_stop p.lx rest
  | .jnum t =>
    (∃ pos, p.curr = some ⟨pos, tok_of_kind (num_classify t), t, .LT_UNKNOWN, num_classify t⟩) ∧
    scalar_stop p.lx rest
  | .jstr t =>
    (∃ pos, p.curr = some ⟨pos, .STRING, t, .LT_UNKNOWN, .NT_UNKNOWN⟩) ∧ acc_at p.lx rest
  | .jarr items =>
    (∃ pos, p.curr = some ⟨pos, .BEGIN_ARRAY, ['['], .LT_UNKNOWN, .NT_UNKNOWN⟩) ∧
    acc_at p.lx (serialize_items items ++ ']' :: rest)
  | .jobj ms =>
    (∃ pos, p.curr = some ⟨pos, .BEGIN_OBJECT, ['\x7b'], .LT_UNKNOWN, .NT_UNKNOWN⟩) ∧
    acc_at p.lx (serialize_members ms ++ '\x7d' :: rest)

/-- C1: on the inputs the claim names, `run` does not behave as claimed:
for "true true" the trailing-content check is skipped entirely — the
lookahead `next_lexeme()` scans the second "true" to the end of the
stream, its result is discarded, and the subsequent `eof` test is already
true, so the parse succeeds (result `true`, the trailing value silently
dropped) instead of raising; for "true garbage" an error is raised but it
is the lexer's unexpected-character error (1060) at the 'g', not an
unexpected-lexeme (2300) or expected-end-of-document (2107) parser error.
Trailing content does raise those errors when it leaves unread input, as
"true true true" (2300) and "true true " (2107) show. -/
theorem parse_doc_trailing_value_slips_through :
    parse_to_result "true true".toList = .ok (some (.pybool true)) ∧
    parse_to_result "true garbage".toList =
      .parser_error ⟨⟨1, 6⟩, JSONParserMessage.ERR_UNEXPECTED_CHAR_FMT⟩ ∧
    JSONParserMessage.ERR_UNEXPECTED_CHAR_FMT ≠ JSONParserMessage.ERR_UNEXPECTED_LEXEME_FMT ∧
    JSONParserMessage.ERR_UNEXPECTED_CHAR_FMT ≠ JSONParserMessage.ERR_EXPECTED_EOF ∧
    parse_to_result "true true true".toList =
      .parser_error ⟨⟨1, 14⟩, JSONParserMessage.ERR_UNEXPECTED_LEXEME_FMT⟩ ∧
    parse_to_result "true true ".toList =
      .parser_error ⟨⟨1, 10⟩, JSONParserMessage.ERR_EXPECTED_EOF⟩ :=
  ⟨rfl, rfl, by decide, by decide, rfl, rfl⟩

/-- C2 counterexample: for the input "[1" (array opened at line 1 col 1,
closing bracket missing) the unclosed-array error is positioned at
(1, 2) — the lexer's current position when the missing `]` is detected —
and not at the opening bracket's position (1, 1) as the claim states. -/
theorem unclosed_array_pos_not_opening :
    SAXParser.run "[1".toList =
      .error (.err ⟨⟨1, 2⟩, JSONParserMessage.ERR_UNCLOSED_ARRAY⟩) ∧
    (⟨1, 2⟩ : TextPos) ≠ ⟨1, 1⟩ :=
  ⟨rfl, by decide⟩

/-- C4: the leading-zero rejection compares the accumulated text against
exactly "0", so it never fires after a minus sign: the input "-01",
which the claim (covering "a single digit '0' with or without a
preceding '-'") says must be an invalid number, is accepted as the
integer token "-01". The unsigned cases behave as claimed: "00" and
"01" are invalid numbers and "0", "-0", "0.0", "-0.0e-0" are valid. -/
theorem leading_zero_minus_accepted :
    first_lexeme "-01".toList =
      .ok (some ⟨⟨1, 1⟩, .NUMBER_INT, "-01".toList, .LT_UNKNOWN, .NT_INTEGER⟩) ∧
    first_lexeme "00".toList = .error ⟨⟨1, 2⟩, JSONParserMessage.ERR_INVALID_NUMBER⟩ ∧
    first_lexeme "01".toList = .error ⟨⟨1, 2⟩, JSONParserMessage.ERR_INVALID_NUMBER⟩ ∧
    first_lexeme "0".toList =
      .ok (some ⟨⟨1, 1⟩, .NUMBER_INT, "0".toList, .LT_UNKNOWN, .NT_INTEGER⟩) ∧
    first_lexeme "-0".toList =
      .ok (some ⟨⟨1, 1⟩, .NUMBER_INT, "-0".toList, .LT_UNKNOWN, .NT_INTEGER⟩) ∧
    first_lexeme "0.0".toList =
      .ok (some ⟨⟨1, 1⟩, .NUMBER_DECIMAL, "0.0".toList, .LT_UNKNOWN, .NT_DECIMAL⟩) ∧
    first_lexeme "-0.0e-0".toList =
      .ok (some ⟨⟨1, 1⟩, .NUMBER_FLOAT, "-0.0e-0".toList, .LT_UNKNOWN, .NT_FLOAT⟩) :=
  ⟨rfl, rfl, rfl, rfl, rfl, rfl, rfl⟩

/-- C5: the `'-'` branch of `NumericParser.read_char` has no rejection
path: fed a misplaced `'-'` (here: right after the digit '1', so neither
the first character nor the first of an exponent) the machine returns
`True` while leaving the accumulated text untouched — the character is
silently consumed without being appended, contradicting the claim that
the feed returns false and the scan terminates. Consequently the input
"1-2" scans as the single integer token "12" and even parses as the
document value 12. -/
theorem numeric_minus_silently_consumed :
    (NumericParser.init.read_char '1').2.read_char '-' =
      (true, (NumericParser.init.read_char '1').2) ∧
    ((NumericParser.init.read_char '1').2.read_char '-').2.value = "1".toList ∧
    first_lexeme "1-2".toList =
      .ok (some ⟨⟨1, 1⟩, .NUMBER_INT, "12".toList, .LT_UNKNOWN, .NT_INTEGER⟩) ∧
    parse_to_result "1-2".toList = .ok (some (.pyint 12)) :=
  ⟨rfl, rfl, rfl, rfl⟩

/-- C6 counterexample: for the input `"\u123"` the unallowed-escape-
sequence error is positioned at (1, 2), the backslash that introduces the
escape (the lexer saves `self._pos` before reading the escape character
and passes it to `handle_escaped_char`), and not at the position (1, 3)
of the 'u' as the claim states. -/
theorem escape_error_pos_at_backslash :
    first_lexeme "\"\\u123\"".toList =
      .error ⟨⟨1, 2⟩, JSONParserMessage.ERR_UNALLOWED_ESCAPE_SEQ⟩ ∧
    "\"\\u123\"".toList.get? 2 = some 'u' ∧
    (⟨1, 2⟩ : TextPos) ≠ ⟨1, 3⟩ :=
  ⟨rfl, rfl, by decide⟩

theorem iter_next_char_pos (k : Nat) (s : LexerState) :
    (iter_next_char k s).pos =
      (track_pos (s.pos, decide (s.c = some '\n')) (s.input.take k)).1 := by
  induction k generalizing s with
  | zero => simp [iter_next_char, track_pos]
  | succ k ih =>
    match h : s.input with
    | [] =>
      have hs : (Lexer.next_char s).2 = { s with c := none, eof := true } := by
        simp [Lexer.next_char, h]
      simp only [iter_next_char, hs, h, List.take_nil]
      rw [ih]
      simp [track_pos]
    | ch :: rest =>
      have hs : (Lexer.next_char s).2 =
          { s with
            input := rest, c := some ch, eof := false, cAccepted := false,
            pos := TextPos.mk (if s.c = some '\n' then TextPos.mk (s.pos.line + 1) 0
                               else s.pos).line
                     ((if s.c = some '\n' then TextPos.mk (s.pos.line + 1) 0
                       else s.pos).col + 1) } := by
        simp [Lexer.next_char, h]
      simp only [iter_next_char, hs, h, List.take_succ_cons]
      rw [ih]
      simp only [track_pos]
      by_cases hc : s.c = some '\n' <;> simp [hc]

/-- C8: the lexer's position invariant. The tracker starts at line 1,
column 0; after any number `k` of one-character reads the lexer's
position equals the independent hand computation `track_pos` over the
`k` consumed characters, in which each consumed newline increments the
line and resets the column to 0 when the following character is consumed
and every consumed character increments the column by 1 (LF-based line
counting). Since `next_char` is the only operation that ever moves the
position, every position a token or error carries is a snapshot of this
invariant's value. -/
theorem lexer_position_tracking :
    (∀ input : List Char, (Lexer.init_lexer input).pos = ⟨1, 0⟩) ∧
    (∀ (input : List Char) (k : Nat),
      (iter_next_char k (Lexer.init_lexer input)).pos =
        (track_pos (⟨1, 0⟩, false) (input.take k)).1) := by
  constructor
  · intro input; rfl
  · intro input k
    have h := iter_next_char_pos k (Lexer.init_lexer input)
    simpa [Lexer.init_lexer] using h

theorem except_err_known {α : Type} {p : TextPos} {n : Nat} {e : JSONParserError}
    (h : (Except.error ⟨p, n⟩ : Except JSONParserError α) = Except.error e)
    (hn : known_message n = true) : known_message e.msg_id = true := by
  injection h with h'
  subst h'
  exact hn

theorem except_err_propagate {α : Type} {e' e : JSONParserError}
    (h : (Except.error e' : Except JSONParserError α) = Except.error e)
    (hn : known_message e'.msg_id = true) : known_message e.msg_id = true := by
  injection h with h'
  subst h'
  exact hn

theorem perr_known {α : Type} {p : TextPos} {n : Nat} {e : JSONParserError}
    (h : (Except.error (SAXParser.PErr.err ⟨p, n⟩) : Except SAXParser.PErr α) =
         Except.error (SAXParser.PErr.err e))
    (hn : known_message n = true) : known_message e.msg_id = true := by
  injection h with h1
  injection h1 with h2
  subst h2
  exact hn

theorem perr_propagate {α : Type} {e' e : JSONParserError}
    (h : (Except.error (SAXParser.PErr.err e') : Except SAXParser.PErr α) =
         Except.error (SAXParser.PErr.err e))
    (hn : known_message e'.msg_id = true) : known_message e.msg_id = true := by
  injection h with h1
  injection h1 with h2
  subst h2
  exact hn

theorem known_of_eq {e : JSONParserError} {p : TextPos} {n : Nat}
    (h : e = ⟨p, n⟩) (hn : known_message n = true) : known_message e.msg_id = true := by
  subst h
  exact hn

theorem hex_value_loop_err (i : Nat) :
    ∀ value s start e, Lexer.hex_value_loop i value s start = .error e →
      e = ⟨start, JSONParserMessage.ERR_UNALLOWED_ESCAPE_SEQ⟩ := by
  induction i with
  | zero => intro value s start e h; simp [Lexer.hex_value_loop] at h
  | succ i ih =>
    intro value s start e h
    simp only [Lexer.hex_value_loop] at h
    split at h
    · split at h
      · exact ih _ _ _ _ h
      · injection h with h'; exact h'.symm
    · injection h with h'; exact h'.symm

theorem handle_escaped_char_err (s : LexerState) (start : TextPos) (e : JSONParserError) :
    Lexer.handle_escaped_char s start = .error e →
      e = ⟨start, JSONParserMessage.ERR_UNALLOWED_ESCAPE_SEQ⟩ := by
  intro h
  simp only [Lexer.handle_escaped_char] at h
  split at h
  · rename_i e' he
    injection h with h'
    subst h'
    exact hex_value_loop_err 4 _ _ _ _ he
  · simp at h

theorem string_scan_err (fuel : Nat) :
    ∀ start_pos value s e, Lexer.string_scan fuel start_pos value s = .error e →
      known_message e.msg_id = true := by
  induction fuel with
  | zero =>
    intro start_pos value s e h
    simp only [Lexer.string_scan] at h
    exact except_err_known h (by decide)
  | succ fuel ih =>
    intro start_pos value s e h
    simp only [Lexer.string_scan] at h
    split at h
    · split at h
      · split at h
        · simp at h
        · split at h
          · split at h
            · split at h
              · split at h
                · exact ih _ _ _ _ h
                · split at h
                  · split at h
                    · rename_i e' he
                      injection h with h'
                      subst h'
                      exact known_of_eq (handle_escaped_char_err _ _ _ he) (by decide)
                    · exact ih _ _ _ _ h
                  · exact except_err_known h (by decide)
              · exact except_err_known h (by decide)
            · exact except_err_known h (by decide)
          · exact ih _ _ _ _ h
      · exact except_err_known h (by decide)
    · exact except_err_known h (by decide)

theorem handle_string_err (s : LexerState) (e : JSONParserError) :
    Lexer.handle_string s = .error e → known_message e.msg_id = true :=
  string_scan_err _ _ _ _ _

theorem handle_literal_err (s : LexerState) (e : JSONParserError) :
    Lexer.handle_literal s = .error e → known_message e.msg_id = true := by
  intro h
  simp only [Lexer.handle_literal] at h
  split at h
  · simp at h
  · split at h
    · simp at h
    · split at h
      · simp at h
      · exact except_err_known h (by decide)

theorem handle_number_err (s : LexerState) (e : JSONParserError) :
    Lexer.handle_number s = .error e → known_message e.msg_id = true := by
  intro h
  simp only [Lexer.handle_number] at h
  split at h
  · exact except_err_known h (by decide)
  · split at h
    · simp at h
    · exact except_err_known h (by decide)

theorem next_lexeme_core_err (s : LexerState) (e : JSONParserError) :
    Lexer.next_lexeme_core s = .error e → known_message e.msg_id = true := by
  intro h
  simp only [Lexer.next_lexeme_core] at h
  split at h
  · split at h
    · split at h
      · split at h
        · rename_i e' he
          exact except_err_propagate h (handle_string_err _ _ he)
        · simp at h
      · split at h
        · split at h
          · rename_i e' he
            exact except_err_propagate h (handle_number_err _ _ he)
          · simp at h
        · split at h
          · simp at h
          · split at h
            · split at h
              · rename_i e' he
                exact except_err_propagate h (handle_literal_err _ _ he)
              · simp at h
            · exact except_err_known h (by decide)
    · exact except_err_known h (by decide)
  · split at h
    · simp at h
    · exact except_err_known h (by decide)

theorem lexer_next_lexeme_err (s : LexerState) (e : JSONParserError) :
    Lexer.next_lexeme s = .error e → known_message e.msg_id = true := by
  intro h
  simp only [Lexer.next_lexeme] at h
  split at h
  · split at h
    · exact next_lexeme_core_err _ _ h
    · simp at h
  · exact next_lexeme_core_err _ _ h

theorem parser_next_lexeme_err (p : ParserState) (e : JSONParserError) :
    SAXParser.next_lexeme p = .error e → known_message e.msg_id = true := by
  intro h
  simp only [SAXParser.next_lexeme] at h
  split at h
  · rename_i e' he
    exact except_err_propagate h (lexer_next_lexeme_err _ _ he)
  · simp at h
  · simp at h

theorem parse_literal_err (p : ParserState) (e : JSONParserError) :
    SAXParser.parse_literal p = .error (.err e) → known_message e.msg_id = true := by
  intro h
  simp only [SAXParser.parse_literal] at h
  split at h
  · split at h
    · simp at h
    · exact perr_known h (by decide)
  · exact perr_known h (by decide)

theorem parse_number_err (p : ParserState) (e : JSONParserError) :
    SAXParser.parse_number p = .error (.err e) → known_message e.msg_id = true := by
  intro h
  simp only [SAXParser.parse_number] at h
  split at h
  · split at h
    · simp at h
    · split at h
      · simp at h
      · exact perr_known h (by decide)
  · exact perr_known h (by decide)

theorem parse_string_err (p : ParserState) (e : JSONParserError) :
    SAXParser.parse_string p = .error (.err e) → known_message e.msg_id = true := by
  intro h
  simp only [SAXParser.parse_string] at h
  split at h
  · split at h
    · simp at h
    · exact perr_known h (by decide)
  · exact perr_known h (by decide)

theorem end_array_check_err (n : Nat) (p : ParserState) (e : JSONParserError) :
    SAXParser.end_array_check n p = .error (.err e) → known_message e.msg_id = true := by
  intro h
  simp only [SAXParser.end_array_check] at h
  split at h
  · simp at h
  · exact perr_known h (by decide)

theorem end_object_check_err (sp : TextPos) (n : Nat) (p : ParserState) (e : JSONParserError) :
    SAXParser.end_object_check sp n p = .error (.err e) → known_message e.msg_id = true := by
  intro h
  simp only [SAXParser.end_object_check] at h
  split at h
  · simp at h
  · exact perr_known h (by decide)

theorem parse_mutual_err (fuel : Nat) :
    (∀ p e, SAXParser.parse_value fuel p = .error (.err e) → known_message e.msg_id = true) ∧
    (∀ p e, SAXParser.parse_array fuel p = .error (.err e) → known_message e.msg_id = true) ∧
    (∀ c p e, SAXParser.parse_array_items fuel c p = .error (.err e) →
      known_message e.msg_id = true) ∧
    (∀ p e, SAXParser.parse_object fuel p = .error (.err e) → known_message e.msg_id = true) ∧
    (∀ c p e, SAXParser.parse_object_members fuel c p = .error (.err e) →
      known_message e.msg_id = true) := by
  induction fuel with
  | zero =>
    refine ⟨?_, ?_, ?_, ?_, ?_⟩ <;> intros <;>
      simp_all [SAXParser.parse_value, SAXParser.parse_array, SAXParser.parse_array_items,
        SAXParser.parse_object, SAXParser.parse_object_members]
  | succ fuel ih =>
    obtain ⟨ihv, iha, ihai, iho, ihom⟩ := ih
    refine ⟨?_, ?_, ?_, ?_, ?_⟩
    · intro p e h
      simp only [SAXParser.parse_value] at h
      split at h
      · exact iha _ _ h
      · split at h
        · exact iho _ _ h
        · split at h
          · exact parse_literal_err _ _ h
          · split at h
            · exact parse_number_err _ _ h
            · split at h
              · exact parse_string_err _ _ h
              · exact perr_known h (by decide)
    · intro p e h
      simp only [SAXParser.parse_array] at h
      split at h
      · split at h
        · rename_i e' he
          exact perr_propagate h (parser_next_lexeme_err _ _ he)
        · split at h
          · split at h
            · rename_i pe hpe
              injection h with h1
              exact ihai _ _ _ (h1 ▸ hpe)
            · exact end_array_check_err _ _ _ h
          · exact end_array_check_err _ _ _ h
      · exact perr_known h (by decide)
    · intro c p e h
      simp only [SAXParser.parse_array_items] at h
      split at h
      · rename_i pe hpe
        injection h with h1
        exact ihv _ _ (h1 ▸ hpe)
      · split at h
        · rename_i e' he
          exact perr_propagate h (parser_next_lexeme_err _ _ he)
        · split at h
          · split at h
            · rename_i e' he
              exact perr_propagate h (parser_next_lexeme_err _ _ he)
            · split at h
              · exact ihai _ _ _ h
              · exact perr_known h (by decide)
          · simp at h
    · intro p e h
      simp only [SAXParser.parse_object] at h
      split at h
      · split at h
        · rename_i e' he
          exact perr_propagate h (parser_next_lexeme_err _ _ he)
        · split at h
          · split at h
            · rename_i pe hpe
              injection h with h1
              exact ihom _ _ _ (h1 ▸ hpe)
            · exact end_object_check_err _ _ _ _ h
          · exact end_object_check_err _ _ _ _ h
      · exact perr_known h (by decide)
    · intro c p e h
      simp only [SAXParser.parse_object_members] at h
      split at h
      · split at h
        · split at h
          · rename_i e' he
            exact perr_propagate h (parser_next_lexeme_err _ _ he)
          · split at h
            · split at h
              · rename_i e' he
                exact perr_propagate h (parser_next_lexeme_err _ _ he)
              · split at h
                · split at h
                  · rename_i pe hpe
                    injection h with h1
                    exact ihv _ _ (h1 ▸ hpe)
                  · split at h
                    · rename_i e' he
                      exact perr_propagate h (parser_next_lexeme_err _ _ he)
                    · split at h
                      · split at h
                        · rename_i e' he
                          exact perr_propagate h (parser_next_lexeme_err _ _ he)
                        · split at h
                          · exact ihom _ _ _ h
                          · exact perr_known h (by decide)
                      · simp at h
                · exact perr_known h (by decide)
            · exact perr_known h (by decide)
        · exact perr_known h (by decide)
      · exact perr_known h (by decide)

theorem parse_doc_end_err (p : ParserState) (e : JSONParserError) :
    SAXParser.parse_doc_end p = .error (.err e) → known_message e.msg_id = true := by
  intro h
  simp only [SAXParser.parse_doc_end] at h
  split at h
  · rename_i e' he
    exact perr_propagate h (parser_next_lexeme_err _ _ he)
  · split at h
    · split at h
      · rename_i e' he
        exact perr_propagate h (parser_next_lexeme_err _ _ he)
      · split at h
        · exact perr_known h (by decide)
        · exact perr_known h (by decide)
    · simp at h

theorem parse_doc_err (fuel : Nat) (p : ParserState) (e : JSONParserError) :
    SAXParser.parse_doc fuel p = .error (.err e) → known_message e.msg_id = true := by
  intro h
  match fuel with
  | 0 => simp [SAXParser.parse_doc] at h
  | fuel + 1 =>
    simp only [SAXParser.parse_doc] at h
    split at h
    · rename_i e' he
      exact perr_propagate h (parser_next_lexeme_err _ _ he)
    · split at h
      · split at h
        · rename_i pe hpe
          injection h with h1
          exact (parse_mutual_err fuel).1 _ _ (h1 ▸ hpe)
        · exact parse_doc_end_err _ _ h
      · split at h
        · simp at h
        · exact parse_doc_end_err _ _ h

/-- C7: invalid-number reporting. General part: for any lexer state, if
the number scan (the feeding loop of `handle_number`) ends with the
machine's classification unknown — which is what the spec defines an
incomplete trailing state to be (input ends right after '.', after
'e'/'E', or after an exponent sign with no digit) — or ends at a stop
character that is unconsumed and neither whitespace nor structural (end
of stream always leaves the last character consumed), then
`handle_number` raises the invalid-number error positioned at the
lexer's current position where scanning stopped, not at the token start.
Concrete parts: "1e", "1eA" and "1e-1A" are invalid numbers with the
error at the last consumed offending position (columns 2, 3 and 5). -/
theorem invalid_number_error_position :
    (∀ s : LexerState,
      ((Lexer.numeric_scan (s.input.length + 2) NumericParser.init s).1.numtype =
          .NT_UNKNOWN ∨
        ((Lexer.numeric_scan (s.input.length + 2) NumericParser.init s).2.cAccepted = false ∧
         Lexer.opt_is Lexer.is_whitespace
           (Lexer.numeric_scan (s.input.length + 2) NumericParser.init s).2.c = false ∧
         Lexer.opt_is Lexer.is_structural
           (Lexer.numeric_scan (s.input.length + 2) NumericParser.init s).2.c = false)) →
      Lexer.handle_number s =
        .error ⟨(Lexer.numeric_scan (s.input.length + 2) NumericParser.init s).2.pos,
                JSONParserMessage.ERR_INVALID_NUMBER⟩) ∧
    first_lexeme "1e".toList = .error ⟨⟨1, 2⟩, JSONParserMessage.ERR_INVALID_NUMBER⟩ ∧
    first_lexeme "1eA".toList = .error ⟨⟨1, 3⟩, JSONParserMessage.ERR_INVALID_NUMBER⟩ ∧
    first_lexeme "1e-1A".toList = .error ⟨⟨1, 5⟩, JSONParserMessage.ERR_INVALID_NUMBER⟩ := by
  refine ⟨?_, rfl, rfl, rfl⟩
  intro s h
  rcases h with h | ⟨h1, h2, h3⟩
  · simp [Lexer.handle_number, h]
  · rcases hnt : (Lexer.numeric_scan (s.input.length + 2) NumericParser.init s).1.numtype with
      _ | _ | _ | _ <;> simp [Lexer.handle_number, hnt, h1, h2, h3]

/-- Witness for C7's general part at the lexer state reached when the
lexer dispatches the input "1eA" to `handle_number`: the scan ends with
classification unknown and the error is raised at the stop position. -/
theorem invalid_number_error_position_witness :
    Lexer.handle_number
        ⟨"eA".toList, false, false, some '1', false, ⟨1, 1⟩⟩ =
      .error ⟨(Lexer.numeric_scan ("eA".toList.length + 2) NumericParser.init
                 ⟨"eA".toList, false, false, some '1', false, ⟨1, 1⟩⟩).2.pos,
              JSONParserMessage.ERR_INVALID_NUMBER⟩ :=
  invalid_number_error_position.1
    ⟨"eA".toList, false, false, some '1', false, ⟨1, 1⟩⟩ (Or.inl (by decide))

/-- C6 (amended): `\uXXXX` decoding. When the four characters that follow
the `u` are hex digits, `handle_escaped_char` consumes exactly those four
characters and decodes them to the single character whose code point is
their hex value (so `"\u1234"` lexes to the one-character string U+1234);
when the remaining input does not start with four hex digits (a digit
missing or a non-hex character among them) it raises the
unallowed-escape-sequence error at `start` — the position its caller
`handle_string` saves for the *backslash* that introduces the escape, as
in the source and its unit tests, not the position of the 'u' that the
original claim states. -/
theorem unicode_escape_decode :
    (∀ (s : LexerState) (start : TextPos) (c1 c2 c3 c4 : Char) (rest : List Char),
      s.input = c1 :: c2 :: c3 :: c4 :: rest →
      Lexer.is_hex_digit c1 = true → Lexer.is_hex_digit c2 = true →
      Lexer.is_hex_digit c3 = true → Lexer.is_hex_digit c4 = true →
      esc_result s start =
        some (Char.ofNat (Lexer.hex_string_val [c1, c2, c3, c4]), rest, true)) ∧
    (∀ (s : LexerState) (start : TextPos),
      hex4_prefix_ok s.input = false →
      Lexer.handle_escaped_char s start =
        .error ⟨start, JSONParserMessage.ERR_UNALLOWED_ESCAPE_SEQ⟩) ∧
    first_lexeme "\"\\u1234\"".toList =
      .ok (some ⟨⟨1, 1⟩, .STRING, [Char.ofNat 4660], .LT_UNKNOWN, .NT_UNKNOWN⟩) ∧
    first_lexeme "\"\\u123\"".toList =
      .error ⟨⟨1, 2⟩, JSONParserMessage.ERR_UNALLOWED_ESCAPE_SEQ⟩ := by
  refine ⟨?_, ?_, rfl, rfl⟩
  · intro s start c1 c2 c3 c4 rest hin h1 h2 h3 h4
    obtain ⟨input, eof, initl, c, cacc, pos⟩ := s
    simp only at hin
    subst hin
    simp [esc_result, Lexer.handle_escaped_char, Lexer.hex_value_loop, Lexer.next_char,
      Lexer.opt_is, h1, h2, h3, h4]
  · intro s start hbad
    obtain ⟨input, eof, initl, c, cacc, pos⟩ := s
    match input with
    | [] =>
      simp [Lexer.handle_escaped_char, Lexer.hex_value_loop, Lexer.next_char, Lexer.opt_is]
    | [c1] =>
      by_cases h1 : Lexer.is_hex_digit c1 = true <;>
        simp [Lexer.handle_escaped_char, Lexer.hex_value_loop, Lexer.next_char,
          Lexer.opt_is, h1]
    | [c1, c2] =>
      by_cases h1 : Lexer.is_hex_digit c1 = true <;>
        by_cases h2 : Lexer.is_hex_digit c2 = true <;>
        simp [Lexer.handle_escaped_char, Lexer.hex_value_loop, Lexer.next_char,
          Lexer.opt_is, h1, h2]
    | [c1, c2, c3] =>
      by_cases h1 : Lexer.is_hex_digit c1 = true <;>
        by_cases h2 : Lexer.is_hex_digit c2 = true <;>
        by_cases h3 : Lexer.is_hex_digit c3 = true <;>
        simp [Lexer.handle_escaped_char, Lexer.hex_value_loop, Lexer.next_char,
          Lexer.opt_is, h1, h2, h3]
    | c1 :: c2 :: c3 :: c4 :: rest =>
      simp only [hex4_prefix_ok, Bool.decide_and] at hbad
      by_cases h1 : Lexer.is_hex_digit c1 = true <;>
        by_cases h2 : Lexer.is_hex_digit c2 = true <;>
        by_cases h3 : Lexer.is_hex_digit c3 = true <;>
        by_cases h4 : Lexer.is_hex_digit c4 = true <;>
        simp_all [Lexer.handle_escaped_char, Lexer.hex_value_loop, Lexer.next_char,
          Lexer.opt_is]

/-- Witness for C6's amended universal parts: decoding succeeds on the
four hex digits "12AB" and fails on an input whose four characters are
not all hex. -/
theorem unicode_escape_decode_witness :
    esc_result ⟨"12AB".toList, false, false, some 'u', false, ⟨1, 3⟩⟩ ⟨1, 2⟩ =
      some (Char.ofNat (Lexer.hex_string_val ['1', '2', 'A', 'B']), [], true) ∧
    Lexer.handle_escaped_char ⟨"12G9".toList, false, false, some 'u', false, ⟨1, 3⟩⟩ ⟨1, 2⟩ =
      .error ⟨⟨1, 2⟩, JSONParserMessage.ERR_UNALLOWED_ESCAPE_SEQ⟩ :=
  ⟨unicode_escape_decode.1 ⟨"12AB".toList, false, false, some 'u', false, ⟨1, 3⟩⟩ ⟨1, 2⟩
      '1' '2' 'A' 'B' [] rfl rfl rfl rfl rfl,
   unicode_escape_decode.2.1 ⟨"12G9".toList, false, false, some 'u', false, ⟨1, 3⟩⟩ ⟨1, 2⟩
      (by decide)⟩

/-- C9: for every input and fuel, any failure that propagates out of a
whole parse (`parse_doc` from a fresh parser state, with an event-
recording handler — one that itself never raises) is a `JSONParserError`
value carrying a position and a message id (the `Except` error type of
the embedding admits nothing else), and that message id always has an
entry in the message table, so the error's formatted message is a real
message and not the unknown-id fallback. -/
theorem errors_carry_known_message (input : List Char) (fuel : Nat) (e : JSONParserError) :
    SAXParser.parse_doc fuel (SAXParser.parser_init input) = .error (.err e) →
    (JSONParserMessage.lookup e.msg_id).isSome = true :=
  parse_doc_err fuel (SAXParser.parser_init input) e

/-- Witness for C9 at the concrete malformed input "x": the parse fails
with the unexpected-character error 1060 at (1, 1), whose message id is
in the table. -/
theorem errors_carry_known_message_witness :
    SAXParser.parse_doc 8 (SAXParser.parser_init "x".toList) =
      .error (.err ⟨⟨1, 1⟩, JSONParserMessage.ERR_UNEXPECTED_CHAR_FMT⟩) ∧
    (JSONParserMessage.lookup JSONParserMessage.ERR_UNEXPECTED_CHAR_FMT).isSome = true :=
  ⟨rfl, errors_carry_known_message "x".toList 8
    ⟨⟨1, 1⟩, JSONParserMessage.ERR_UNEXPECTED_CHAR_FMT⟩ rfl⟩

/-!  Lexer stepping lemmas for the round-trip proof. -/

theorem next_char_cons (s : LexerState) (ch : Char) (rest : List Char)
    (h : s.input = ch :: rest) :
    ∃ q, Lexer.next_char s = (true, q) ∧ q.input = rest ∧ q.c = some ch ∧
      q.eof = false ∧ q.cAccepted = false ∧ q.initial = s.initial ∧ q.pos = q.pos := by
  refine ⟨(Lexer.next_char s).2, ?_, ?_, ?_, ?_, ?_, ?_, rfl⟩ <;>
    simp [Lexer.next_char, h]

theorem next_char_nil (s : LexerState) (h : s.input = []) :
    Lexer.next_char s = (false, { s with c := none, eof := true }) := by
  simp [Lexer.next_char, h]

theorem skip_nonws (fuel : Nat) (s : LexerState)
    (h : Lexer.opt_is Lexer.is_whitespace s.c = false) :
    Lexer.skip_whitespaces fuel s = s := by
  cases fuel <;> simp [Lexer.skip_whitespaces, h]

theorem structural_props (ch : Char) (tok : Token)
    (h : Lexer.structural_token ch = some tok) :
    (ch = '"') = False ∧ Lexer.is_dec_digit_s ch = false ∧
    Lexer.is_whitespace ch = false := by
  simp only [Lexer.structural_token] at h
  split_ifs at h with h1 h2 h3 h4 h5 h6 <;> first
    | (subst h1; refine ⟨by simp, by decide, by decide⟩)
    | (subst h2; refine ⟨by simp, by decide, by decide⟩)
    | (subst h3; refine ⟨by simp, by decide, by decide⟩)
    | (subst h4; refine ⟨by simp, by decide, by decide⟩)
    | (subst h5; refine ⟨by simp, by decide, by decide⟩)
    | (subst h6; refine ⟨by simp, by decide, by decide⟩)
    | simp at h

/-- From a `ready_at` state on a non-empty stream, `next_lexeme` reaches
the dispatch core in a state holding the stream's first character. -/
theorem next_lexeme_ready (s : LexerState) (ch : Char) (rest : List Char)
    (h : ready_at s (ch :: rest)) :
    ∃ q, Lexer.next_lexeme s = Lexer.next_lexeme_core q ∧
      q.c = some ch ∧ q.input = rest ∧ q.cAccepted = false ∧ q.eof = false ∧
      q.initial = false := by
  obtain ⟨heof, hA | hB⟩ := h
  · obtain ⟨hci, hin⟩ := hA
    obtain ⟨q, hq, hq1, hq2, hq3, hq4, hq5, -⟩ := next_char_cons s ch rest hin
    refine ⟨{ q with initial := false }, ?_, by simp [hq2], by simp [hq1],
      by simp [hq4], by simp [hq3], by simp⟩
    have hcond : (s.cAccepted = true ∨ s.initial = true) := hci
    simp only [Lexer.next_lexeme, hq]
    rcases hcond with hc1 | hc1 <;> simp [hc1]
  · obtain ⟨hca, hini, ch2, rest2, hre, hc, hin⟩ := hB
    obtain ⟨rfl, rfl⟩ : ch2 = ch ∧ rest2 = rest := by
      constructor <;> [exact (List.cons.injEq _ _ _ _ ▸ hre).1.symm;
        exact (List.cons.injEq _ _ _ _ ▸ hre).2.symm]
    refine ⟨{ s with initial := false }, ?_, by simp [hc], by simp [hin],
      by simp [hca], by simp [heof], by simp⟩
    simp [Lexer.next_lexeme, hca, hini]

/-- End of stream: from any boundary state whose remaining stream is
empty, the lexer reports no more lexemes and raises its eof flag. -/
theorem next_lexeme_end (s : LexerState)
    (hca : s.cAccepted = true ∨ s.initial = true) (hin : s.input = []) :
    ∃ s', Lexer.next_lexeme s = .ok (none, s') ∧ s'.eof = true := by
  refine ⟨{ s with c := none, eof := true }, ?_, rfl⟩
  have hcond : (s.cAccepted = true ∨ s.initial = true) := hca
  simp only [Lexer.next_lexeme, next_char_nil s hin]
  rcases hcond with hc1 | hc1 <;> simp [hc1]

/-- The accumulation loop of `handle_literal` over a run of plain
characters, stopped by end of stream or a whitespace/structural
character. -/
theorem literal_value_loop_run (body : List Char) :
    ∀ (fuel : Nat) (value : List Char) (s : LexerState) (rest : List Char),
    (∀ c ∈ body, Lexer.is_whitespace c = false ∧ Lexer.is_structural c = false) →
    (rest = [] ∨ ∃ ch rest2, rest = ch :: rest2 ∧
      (Lexer.is_whitespace ch = true ∨ Lexer.is_structural ch = true)) →
    s.input = body ++ rest → s.cAccepted = true → s.eof = false → s.initial = false →
    body.length + 2 ≤ fuel →
    ∃ s', Lexer.literal_value_loop fuel value s = (value ++ body, s') ∧
      scalar_stop s' rest := by
  induction body with
  | nil =>
    intro fuel value s rest hbody hrest hin hca heof hini hfuel
    match fuel, hfuel with
    | fuel + 1, _ =>
      rcases hrest with rfl | ⟨ch, rest2, rfl, hch⟩
      · simp only [List.nil_append] at hin
        refine ⟨{ s with c := none, eof := true }, ?_, ?_⟩
        · simp [Lexer.literal_value_loop, next_char_nil s hin]
        · exact Or.inl ⟨rfl, rfl, rfl, hca, hini, hin⟩
      · simp only [List.nil_append] at hin
        obtain ⟨q, hq, hq1, hq2, hq3, hq4, hq5, -⟩ := next_char_cons s ch rest2 hin
        refine ⟨q, ?_, ?_⟩
        · simp only [Lexer.literal_value_loop, hq, hq2]
          rcases hch with hch | hch <;> simp [hch]
        · exact Or.inr ⟨ch, rest2, rfl, hq3, hq5.trans hini, hq4, hq2, hq1⟩
  | cons b body ih =>
    intro fuel value s rest hbody hrest hin hca heof hini hfuel
    match fuel, hfuel with
    | fuel + 1, hfuel =>
      have hbh := hbody b (by simp)
      simp only [List.cons_append] at hin
      obtain ⟨q, hq, hq1, hq2, hq3, hq4, hq5, -⟩ := next_char_cons s b (body ++ rest) hin
      obtain ⟨s', hs', hstop⟩ := ih fuel (value ++ [b]) { q with cAccepted := true } rest
        (fun c hc => hbody c (by simp [hc])) hrest (by simp [hq1]) rfl (by simp [hq3])
        (by simp [hq5, hini])
        (by simp only [List.length_cons] at hfuel; omega)
      refine ⟨s', ?_, hstop⟩
      simp only [Lexer.literal_value_loop, hq, hq2, hbh.1, hbh.2, Bool.false_eq_true,
        or_self, if_false, ite_false, if_true, ite_true]
      simp only [hq2] at hs'
      rw [hs']
      simp

theorem char_list_all_plain_null :
    ∀ c ∈ "ull".toList, Lexer.is_whitespace c = false ∧ Lexer.is_structural c = false := by
  decide

theorem char_list_all_plain_rue :
    ∀ c ∈ "rue".toList, Lexer.is_whitespace c = false ∧ Lexer.is_structural c = false := by
  decide

theorem char_list_all_plain_alse :
    ∀ c ∈ "alse".toList, Lexer.is_whitespace c = false ∧ Lexer.is_structural c = false := by
  decide

theorem sep_stop (rest : List Char) (hsep : sep_ok rest = true) :
    rest = [] ∨ ∃ ch rest2, rest = ch :: rest2 ∧
      (Lexer.is_whitespace ch = true ∨ Lexer.is_structural ch = true) := by
  match rest with
  | [] => exact Or.inl rfl
  | c :: r2 =>
    simp only [sep_ok, decide_eq_true_eq] at hsep
    refine Or.inr ⟨c, r2, rfl, Or.inr ?_⟩
    rcases hsep with rfl | rfl | rfl <;> decide

/-- Lexing a structural character from a boundary state. -/
theorem nl_structural (s : LexerState) (ch : Char) (rest : List Char) (tok : Token)
    (h : ready_at s (ch :: rest)) (htok : Lexer.structural_token ch = some tok) :
    ∃ pos st, Lexer.next_lexeme s =
      .ok (some ⟨pos, tok, [ch], .LT_UNKNOWN, .NT_UNKNOWN⟩, st) ∧ acc_at st rest := by
  obtain ⟨q, hnl, hc, hin, hca, heof, hini⟩ := next_lexeme_ready s ch rest h
  obtain ⟨hq, hdig, hws⟩ := structural_props ch tok htok
  refine ⟨q.pos, { q with cAccepted := true }, ?_, ?_⟩
  · rw [hnl]
    have hskip : Lexer.skip_whitespaces (q.input.length + 2) q = q :=
      skip_nonws _ _ (by rw [hc]; simp [Lexer.opt_is, hws])
    simp only [Lexer.next_lexeme_core, hskip, hca, hc]
    simp [hq, hdig, htok, hin]
  · exact ⟨heof, hini, rfl, hin⟩

/-- Lexing the literal `null` from a boundary state. -/
theorem nl_null (s : LexerState) (rest : List Char)
    (h : ready_at s ("null".toList ++ rest)) (hsep : sep_ok rest = true) :
    ∃ pos st, Lexer.next_lexeme s =
      .ok (some ⟨pos, .LITERAL_NULL, "null".toList, .LT_NULL, .NT_UNKNOWN⟩, st) ∧
      scalar_stop st rest := by
  obtain ⟨q, hnl, hc, hin, hca, heof, hini⟩ :=
    next_lexeme_ready s 'n' ("ull".toList ++ rest) h
  obtain ⟨s', hs', hstop⟩ := literal_value_loop_run "ull".toList (q.input.length + 2)
    ['n'] { q with cAccepted := true } rest char_list_all_plain_null
    (sep_stop rest hsep) (by simp [hin]) rfl (by simp [heof]) (by simp [hini])
    (by simp [hin])
  refine ⟨q.pos, s', ?_, hstop⟩
  rw [hnl]
  have hskip : Lexer.skip_whitespaces (q.input.length + 2) q = q :=
    skip_nonws _ _ (by rw [hc]; decide)
  simp only [Lexer.next_lexeme_core, hskip, hca, hc]
  simp only [show (('n' : Char) = '"') = False by simp, if_false, ite_false,
    show Lexer.is_dec_digit_s 'n' = false from by decide, Bool.false_eq_true,
    show Lexer.structural_token 'n' = none from by decide,
    show Lexer.is_literal_head 'n' = true from by decide, if_true, ite_true]
  simp only [hc] at hs'
  simp only [Lexer.handle_literal, hc, hs']
  simp

/-- Lexing the literal `true` from a boundary state. -/
theorem nl_true (s : LexerState) (rest : List Char)
    (h : ready_at s ("true".toList ++ rest)) (hsep : sep_ok rest = true) :
    ∃ pos st, Lexer.next_lexeme s =
      .ok (some ⟨pos, .LITERAL_TRUE, "true".toList, .LT_TRUE, .NT_UNKNOWN⟩, st) ∧
      scalar_stop st rest := by
  obtain ⟨q, hnl, hc, hin, hca, heof, hini⟩ :=
    next_lexeme_ready s 't' ("rue".toList ++ rest) h
  obtain ⟨s', hs', hstop⟩ := literal_value_loop_run "rue".toList (q.input.length + 2)
    ['t'] { q with cAccepted := true } rest char_list_all_plain_rue
    (sep_stop rest hsep) (by simp [hin]) rfl (by simp [heof]) (by simp [hini])
    (by simp [hin])
  refine ⟨q.pos, s', ?_, hstop⟩
  rw [hnl]
  have hskip : Lexer.skip_whitespaces (q.input.length + 2) q = q :=
    skip_nonws _ _ (by rw [hc]; decide)
  simp only [Lexer.next_lexeme_core, hskip, hca, hc]
  simp only [show (('t' : Char) = '"') = False by simp, if_false, ite_false,
    show Lexer.is_dec_digit_s 't' = false from by decide, Bool.false_eq_true,
    show Lexer.structural_token 't' = none from by decide,
    show Lexer.is_literal_head 't' = true from by decide, if_true, ite_true]
  simp only [hc] at hs'
  simp only [Lexer.handle_literal, hc, hs']
  simp

/-- Lexing the literal `false` from a boundary state. -/
theorem nl_false (s : LexerState) (rest : List Char)
    (h : ready_at s ("false".toList ++ rest)) (hsep : sep_ok rest = true) :
    ∃ pos st, Lexer.next_lexeme s =
      .ok (some ⟨pos, .LITERAL_FALSE, "false".toList, .LT_FALSE, .NT_UNKNOWN⟩, st) ∧
      scalar_stop st rest := by
  obtain ⟨q, hnl, hc, hin, hca, heof, hini⟩ :=
    next_lexeme_ready s 'f' ("alse".toList ++ rest) h
  obtain ⟨s', hs', hstop⟩ := literal_value_loop_run "alse".toList (q.input.length + 2)
    ['f'] { q with cAccepted := true } rest char_list_all_plain_alse
    (sep_stop rest hsep) (by simp [hin]) rfl (by simp [heof]) (by simp [hini])
    (by simp [hin])
  refine ⟨q.pos, s', ?_, hstop⟩
  rw [hnl]
  have hskip : Lexer.skip_whitespaces (q.input.length + 2) q = q :=
    skip_nonws _ _ (by rw [hc]; decide)
  simp only [Lexer.next_lexeme_core, hskip, hca, hc]
  simp only [show (('f' : Char) = '"') = False by simp, if_false, ite_false,
    show Lexer.is_dec_digit_s 'f' = false from by decide, Bool.false_eq_true,
    show Lexer.structural_token 'f' = none from by decide,
    show Lexer.is_literal_head 'f' = true from by decide, if_true, ite_true]
  simp only [hc] at hs'
  simp only [Lexer.handle_literal, hc, hs']
  simp

theorem read_char_sep (np : NumericParser) (r : Char)
    (h : r = ',' ∨ r = ']' ∨ r = '\x7d') : np.read_char r = (false, np) := by
  rcases h with rfl | rfl | rfl <;> rfl

theorem dec_digit_s_not_quote (c : Char) (h : Lexer.is_dec_digit_s c = true) :
    ¬(c = '"') := by
  rintro rfl
  simp [Lexer.is_dec_digit_s] at h

theorem dec_digit_s_not_ws (c : Char) (h : Lexer.is_dec_digit_s c = true) :
    Lexer.is_whitespace c = false := by
  simp only [Lexer.is_dec_digit_s, Bool.or_eq_true, decide_eq_true_eq] at h
  rcases h with h | h | h
  · by_contra hw
    simp only [Bool.not_eq_false] at hw
    simp only [Lexer.is_whitespace, Bool.or_eq_true, decide_eq_true_eq] at hw
    rcases hw with rfl | rfl | rfl | rfl <;> simp_all
  · subst h; decide
  · subst h; decide

/-- The feeding loop of `handle_number` over a fully accepted character
run, stopped by end of stream or by the machine rejecting the next
character. -/
theorem numeric_scan_run (chars : List Char) :
    ∀ (c : Char) (np np2 : NumericParser) (s : LexerState) (rest : List Char) (fuel : Nat),
    np_feed_all np (c :: chars) = some np2 →
    s.c = some c → s.input = chars ++ rest → s.eof = false → s.initial = false →
    chars.length + 2 ≤ fuel →
    ((rest = [] → (Lexer.numeric_scan fuel np s).1 = np2 ∧
       at_eof (Lexer.numeric_scan fuel np s).2) ∧
     (∀ r rest2, rest = r :: rest2 → (np2.read_char r).1 = false →
       (Lexer.numeric_scan fuel np s).1 = (np2.read_char r).2 ∧
         pend_at (Lexer.numeric_scan fuel np s).2 r rest2)) := by
  induction chars with
  | nil =>
    intro c np np2 s rest fuel hfeed hc hin heof hini hfuel
    simp only [List.nil_append] at hin
    have hrc : (np.read_char c).1 = true ∧ (np.read_char c).2 = np2 := by
      simp only [np_feed_all] at hfeed
      rcases hb : (np.read_char c).1 with _ | _
      · rw [hb] at hfeed; simp at hfeed
      · rw [hb] at hfeed
        simp only [if_true, ite_true, np_feed_all, Option.some.injEq] at hfeed
        exact ⟨rfl, hfeed⟩
    obtain ⟨fuel, rfl⟩ : ∃ g, fuel = g + 2 := ⟨fuel - 2, by omega⟩
    obtain ⟨inp, eo, ini, cc, ca, ps⟩ := s
    simp only at hc hin heof hini
    subst hc; subst hin; subst heof; subst hini
    constructor
    · rintro rfl
      constructor <;>
        simp [Lexer.numeric_scan, NumericParser.read_cur, hrc.1, hrc.2,
          Lexer.next_char, at_eof]
    · rintro r rest2 rfl hrej
      constructor <;>
        simp [Lexer.numeric_scan, NumericParser.read_cur, hrc.1, hrc.2,
          Lexer.next_char, hrej, pend_at]
  | cons d chars ih =>
    intro c np np2 s rest fuel hfeed hc hin heof hini hfuel
    have hrc : (np.read_char c).1 = true ∧
        np_feed_all (np.read_char c).2 (d :: chars) = some np2 := by
      simp only [np_feed_all] at hfeed
      rcases hb : (np.read_char c).1 with _ | _
      · rw [hb] at hfeed; simp at hfeed
      · rw [hb] at hfeed
        simp only [if_true, ite_true] at hfeed
        exact ⟨rfl, hfeed⟩
    obtain ⟨fuel, rfl⟩ : ∃ g, fuel = g + 1 := ⟨fuel - 1, by omega⟩
    simp only [List.cons_append] at hin
    obtain ⟨inp, eo, ini, cc, ca, ps⟩ := s
    simp only at hc hin heof hini
    subst hc; subst hin; subst heof; subst hini
    have hstep : (Lexer.next_char ⟨d :: (chars ++ rest), false, false, some c, true, ps⟩).1
        = true := by simp [Lexer.next_char]
    have ihh := ih d (np.read_char c).2 np2
      (Lexer.next_char ⟨d :: (chars ++ rest), false, false, some c, true, ps⟩).2 rest fuel
      hrc.2 (by simp [Lexer.next_char]) (by simp [Lexer.next_char])
      (by simp [Lexer.next_char]) (by simp [Lexer.next_char])
      (by simp only [List.length_cons] at hfuel; omega)
    have hred : Lexer.numeric_scan (fuel + 1) np
        ⟨d :: (chars ++ rest), false, false, some c, ca, ps⟩ =
        Lexer.numeric_scan fuel (np.read_char c).2
          (Lexer.next_char ⟨d :: (chars ++ rest), false, false, some c, true, ps⟩).2 := by
      simp only [Lexer.numeric_scan, NumericParser.read_cur, hrc.1, hstep,
        if_true, ite_true]
    rw [hred]
    exact ihh

/-- Lexing a valid number token from a boundary state, up to a separator
or end of stream. -/
theorem nl_number (s : LexerState) (t : List Char) (rest : List Char)
    (h : ready_at s (t ++ rest)) (ht : num_token_ok t = true) (hsep : sep_ok rest = true) :
    ∃ pos st, Lexer.next_lexeme s =
      .ok (some ⟨pos, tok_of_kind (num_classify t), t, .LT_UNKNOWN, num_classify t⟩, st) ∧
      scalar_stop st rest := by
  match t, ht with
  | c :: t', ht =>
    have hd : Lexer.is_dec_digit_s c = true := by
      simp only [num_token_ok, Bool.and_eq_true] at ht
      exact ht.1
    obtain ⟨np2, hfeed, hnt, hval⟩ :
        ∃ np2, np_feed_all NumericParser.init (c :: t') = some np2 ∧
          np2.numtype ≠ NumericTokenKind.NT_UNKNOWN ∧ np2.value = c :: t' := by
      simp only [num_token_ok, Bool.and_eq_true] at ht
      have ht2 := ht.2
      rcases hfa : np_feed_all NumericParser.init (c :: t') with _ | np2
      · rw [hfa] at ht2; simp at ht2
      · rw [hfa] at ht2
        simp only [decide_eq_true_eq] at ht2
        exact ⟨np2, rfl, ht2.1, ht2.2⟩
    have hcls : num_classify (c :: t') = np2.numtype := by
      simp [num_classify, hfeed]
    have hready : ready_at s (c :: (t' ++ rest)) := by
      simpa using h
    obtain ⟨q, hnl, hc, hin, hca, heof, hini⟩ := next_lexeme_ready s c (t' ++ rest) hready
    have hscan := numeric_scan_run t' c NumericParser.init np2 q rest
      (q.input.length + 2) hfeed hc hin heof hini (by simp [hin])
    have hskip : Lexer.skip_whitespaces (q.input.length + 2) q = q :=
      skip_nonws _ _ (by rw [hc]; simp [Lexer.opt_is, dec_digit_s_not_ws c hd])
    have hnq : ¬(c = '"') := dec_digit_s_not_quote c hd
    have hcore : Lexer.next_lexeme s =
        match Lexer.handle_number q with
        | .error e => .error e
        | .ok (lex, st) => .ok (some lex, st) := by
      rw [hnl]
      simp only [Lexer.next_lexeme_core, hskip, hca, hc]
      simp [hnq, hd]
    rcases rest with _ | ⟨r, rest2⟩
    · obtain ⟨h1, h2⟩ := hscan.1 rfl
      have hacc : (Lexer.numeric_scan (q.input.length + 2) NumericParser.init q).2.cAccepted
          = true := h2.2.2.1
      have hok : Lexer.handle_number q = .ok
          (⟨q.pos, tok_of_kind np2.numtype, np2.value, .LT_UNKNOWN, np2.numtype⟩,
           (Lexer.numeric_scan (q.input.length + 2) NumericParser.init q).2) := by
        rcases hnk : np2.numtype with _ | _ | _ | _
        · exact absurd hnk hnt
        all_goals
          simp [Lexer.handle_number, h1, hnk, hacc, tok_of_kind]
      refine ⟨q.pos, _, ?_, Or.inl ⟨rfl, h2⟩⟩
      rw [hcore, hok, hcls, hval]
    · simp only [sep_ok, decide_eq_true_eq] at hsep
      have hrej : np2.read_char r = (false, np2) := read_char_sep np2 r hsep
      obtain ⟨h1, h2⟩ := hscan.2 r rest2 rfl (by rw [hrej])
      rw [hrej] at h1
      have hca2 : (Lexer.numeric_scan (q.input.length + 2) NumericParser.init q).2.cAccepted
          = false := h2.2.2.1
      have hc2 : (Lexer.numeric_scan (q.input.length + 2) NumericParser.init q).2.c
          = some r := h2.2.2.2.1
      have hwsr : Lexer.is_whitespace r = false := by
        rcases hsep with rfl | rfl | rfl <;> decide
      have hstr : Lexer.is_structural r = true := by
        rcases hsep with rfl | rfl | rfl <;> decide
      have hok : Lexer.handle_number q = .ok
          (⟨q.pos, tok_of_kind np2.numtype, np2.value, .LT_UNKNOWN, np2.numtype⟩,
           (Lexer.numeric_scan (q.input.length + 2) NumericParser.init q).2) := by
        rcases hnk : np2.numtype with _ | _ | _ | _
        · exact absurd hnk hnt
        all_goals
          simp [Lexer.handle_number, h1, hnk, hca2, hc2, Lexer.opt_is, hwsr, hstr,
            tok_of_kind]
      refine ⟨q.pos, _, ?_, Or.inr ⟨r, rest2, rfl, h2⟩⟩
      rw [hcore, hok, hcls, hval]

/-- The scanning loop of `handle_string` over escape-free content up to
the closing quote. -/
theorem string_scan_run (content : List Char) :
    ∀ (fuel : Nat) (start : TextPos) (value : List Char) (s : LexerState) (rest : List Char),
    str_ok content = true →
    s.input = content ++ '"' :: rest → s.eof = false → s.initial = false →
    content.length + 2 ≤ fuel →
    ∃ st, Lexer.string_scan fuel start value s =
      .ok (⟨start, .STRING, value ++ content, .LT_UNKNOWN, .NT_UNKNOWN⟩, st) ∧
      acc_at st rest := by
  induction content with
  | nil =>
    intro fuel start value s rest hok hin heof hini hfuel
    obtain ⟨fuel, rfl⟩ : ∃ g, fuel = g + 1 := ⟨fuel - 1, by omega⟩
    simp only [List.nil_append] at hin
    obtain ⟨inp, eo, ini, cc, ca, ps⟩ := s
    simp only at hin heof hini
    subst hin; subst heof; subst hini
    rcases hres : Lexer.string_scan (fuel + 1) start value
        ⟨'"' :: rest, false, false, cc, ca, ps⟩ with e | lp
    · exfalso
      simp [Lexer.string_scan, Lexer.next_char] at hres
    · obtain ⟨lex, st⟩ := lp
      have hinv := hres
      simp only [Lexer.string_scan, Lexer.next_char, if_true, ite_true,
        Except.ok.injEq, Prod.mk.injEq] at hinv
      obtain ⟨hlex, hstate⟩ := hinv
      refine ⟨st, ?_, ?_⟩
      · rw [← hlex]
        simp
      · rw [← hstate]
        exact ⟨rfl, rfl, rfl, rfl⟩
  | cons ch content ih =>
    intro fuel start value s rest hok hin heof hini hfuel
    obtain ⟨fuel, rfl⟩ : ∃ g, fuel = g + 1 := ⟨fuel - 1, by omega⟩
    have hchq : ¬(ch = '"') := by
      simp only [str_ok, List.all_cons, Bool.and_eq_true, decide_eq_true_eq] at hok
      exact hok.1.1
    have hchb : ¬(ch = '\\') := by
      simp only [str_ok, List.all_cons, Bool.and_eq_true, decide_eq_true_eq] at hok
      exact hok.1.2
    have hok2 : str_ok content = true := by
      simp only [str_ok, List.all_cons, Bool.and_eq_true] at hok
      exact hok.2
    simp only [List.cons_append] at hin
    obtain ⟨inp, eo, ini, cc, ca, ps⟩ := s
    simp only at hin heof hini
    subst hin; subst heof; subst hini
    obtain ⟨st, hst, hacc⟩ := ih fuel start (value ++ [ch])
      ⟨content ++ '"' :: rest, false, false, some ch, true,
        TextPos.mk (if cc = some '\n' then TextPos.mk (ps.line + 1) 0 else ps).line
          ((if cc = some '\n' then TextPos.mk (ps.line + 1) 0 else ps).col + 1)⟩
      rest hok2 rfl rfl rfl
      (by simp only [List.length_cons] at hfuel; omega)
    refine ⟨st, ?_, hacc⟩
    simp only [Lexer.string_scan, Lexer.next_char, if_true, ite_true, hchq, hchb,
      if_false, ite_false]
    rw [hst]
    simp

/-- Lexing a string token with escape-free content from a boundary
state. -/
theorem nl_string (s : LexerState) (content : List Char) (rest : List Char)
    (h : ready_at s ('"' :: (content ++ '"' :: rest))) (hcon : str_ok content = true) :
    ∃ pos st, Lexer.next_lexeme s =
      .ok (some ⟨pos, .STRING, content, .LT_UNKNOWN, .NT_UNKNOWN⟩, st) ∧ acc_at st rest := by
  obtain ⟨q, hnl, hc, hin, hca, heof, hini⟩ :=
    next_lexeme_ready s '"' (content ++ '"' :: rest) h
  obtain ⟨st, hst, hacc⟩ := string_scan_run content (q.input.length + 2) q.pos [] q rest
    hcon hin heof hini (by simp [hin])
  refine ⟨q.pos, st, ?_, hacc⟩
  rw [hnl]
  have hskip : Lexer.skip_whitespaces (q.input.length + 2) q = q :=
    skip_nonws _ _ (by rw [hc]; decide)
  simp only [Lexer.next_lexeme_core, hskip, hca, hc, if_true, ite_true]
  simp only [Lexer.handle_string, hst]
  simp

theorem acc_ready (s : LexerState) (rest : List Char) (h : acc_at s rest) :
    ready_at s rest :=
  ⟨h.1, Or.inl ⟨Or.inl h.2.2.1, h.2.2.2⟩⟩

theorem scalar_stop_boundary (s : LexerState) (rest : List Char)
    (h : scalar_stop s rest) : boundary s rest := by
  rcases h with ⟨hr, hat⟩ | ⟨ch, r2, hre, hp⟩
  · exact Or.inr ⟨hr, hat⟩
  · exact Or.inl ⟨hp.1, Or.inr ⟨hp.2.2.1, hp.2.1, ch, r2, hre, hp.2.2.2.1, hp.2.2.2.2⟩⟩

theorem acc_boundary (s : LexerState) (rest : List Char) (h : acc_at s rest) :
    boundary s rest :=
  Or.inl (acc_ready s rest h)

theorem boundary_ready_cons (s : LexerState) (ch : Char) (rest : List Char)
    (h : boundary s (ch :: rest)) : ready_at s (ch :: rest) := by
  rcases h with hr | ⟨habs, -⟩
  · exact hr
  · exact absurd habs (by simp)

/-- A boundary state on an exhausted stream: the next pull returns no
lexeme and leaves the lexer's eof flag set. -/
theorem boundary_nil_end (s : LexerState) (h : boundary s []) :
    ∃ s', Lexer.next_lexeme s = .ok (none, s') ∧ s'.eof = true := by
  rcases h with ⟨heof, hA | hB⟩ | ⟨-, hat⟩
  · exact next_lexeme_end s hA.1 hA.2
  · obtain ⟨-, -, ch, r2, habs, -⟩ := hB
    exact absurd habs (by simp)
  · exact next_lexeme_end s (Or.inl hat.2.2.1) hat.2.2.2.2

theorem pnext_some (p : ParserState) (lex : Lexeme) (st : LexerState)
    (h : Lexer.next_lexeme p.lx = .ok (some lex, st)) :
    SAXParser.next_lexeme p =
      .ok (true, ⟨st, some lex, p.events ++ [.textpos_changed st.pos]⟩) := by
  simp [SAXParser.next_lexeme, h]

theorem pnext_none (p : ParserState) (st : LexerState)
    (h : Lexer.next_lexeme p.lx = .ok (none, st)) :
    SAXParser.next_lexeme p = .ok (false, ⟨st, none, p.events⟩) := by
  simp [SAXParser.next_lexeme, h]

/-- Pulling the first lexeme of a serialized value: the parser's current
lexeme becomes that token and the lexer sits at the value's inner
boundary. -/
theorem value_first (v : JValue) (p : ParserState) (rest : List Char)
    (hwf : wf_value v = true) (hr : ready_at p.lx (serialize_value v ++ rest))
    (hsep : sep_ok rest = true) :
    ∃ p', SAXParser.next_lexeme p = .ok (true, p') ∧ value_started v p' rest ∧
      p'.events = p.events ++ [.textpos_changed p'.lx.pos] := by
  cases v with
  | jnull =>
    obtain ⟨pos, st, hlex, hstop⟩ := nl_null p.lx rest
      (by simpa [serialize_value] using hr) hsep
    exact ⟨⟨st, some _, p.events ++ [.textpos_changed st.pos]⟩,
      pnext_some p _ st hlex, ⟨⟨pos, rfl⟩, hstop⟩, rfl⟩
  | jbool b =>
    cases b with
    | true =>
      obtain ⟨pos, st, hlex, hstop⟩ := nl_true p.lx rest
        (by simpa [serialize_value] using hr) hsep
      exact ⟨⟨st, some _, p.events ++ [.textpos_changed st.pos]⟩,
        pnext_some p _ st hlex, ⟨⟨pos, rfl⟩, hstop⟩, rfl⟩
    | false =>
      obtain ⟨pos, st, hlex, hstop⟩ := nl_false p.lx rest
        (by simpa [serialize_value] using hr) hsep
      exact ⟨⟨st, some _, p.events ++ [.textpos_changed st.pos]⟩,
        pnext_some p _ st hlex, ⟨⟨pos, rfl⟩, hstop⟩, rfl⟩
  | jnum t =>
    obtain ⟨pos, st, hlex, hstop⟩ := nl_number p.lx t rest
      (by simpa [serialize_value] using hr) (by simpa [wf_value] using hwf) hsep
    exact ⟨⟨st, some _, p.events ++ [.textpos_changed st.pos]⟩,
      pnext_some p _ st hlex, ⟨⟨pos, rfl⟩, hstop⟩, rfl⟩
  | jstr t =>
    obtain ⟨pos, st, hlex, hacc⟩ := nl_string p.lx t rest
      (by simpa [serialize_value, List.append_assoc] using hr)
      (by simpa [wf_value] using hwf)
    exact ⟨⟨st, some _, p.events ++ [.textpos_changed st.pos]⟩,
      pnext_some p _ st hlex, ⟨⟨pos, rfl⟩, hacc⟩, rfl⟩
  | jarr items =>
    obtain ⟨pos, st, hlex, hacc⟩ := nl_structural p.lx '[' (serialize_items items ++ ']' :: rest)
      Token.BEGIN_ARRAY (by simpa [serialize_value, List.append_assoc] using hr) rfl
    exact ⟨⟨st, some _, p.events ++ [.textpos_changed st.pos]⟩,
      pnext_some p _ st hlex, ⟨⟨pos, rfl⟩, hacc⟩, rfl⟩
  | jobj ms =>
    obtain ⟨pos, st, hlex, hacc⟩ := nl_structural p.lx '\x7b'
      (serialize_members ms ++ '\x7d' :: rest) Token.BEGIN_OBJECT
      (by simpa [serialize_value, List.append_assoc] using hr) rfl
    exact ⟨⟨st, some _, p.events ++ [.textpos_changed st.pos]⟩,
      pnext_some p _ st hlex, ⟨⟨pos, rfl⟩, hacc⟩, rfl⟩

/-!  Handler fold lemmas: the effect on a `SAXHandlerBasic` stack of the
event sequences the parser emits for serialized values. -/

theorem apply_events_append (a b : List SAXEvent) (st : List PyValue) :
    SAXHandlerBasic.apply_events (a ++ b) st =
      match SAXHandlerBasic.apply_events a st with
      | .ok st2 => SAXHandlerBasic.apply_events b st2
      | .error e => .error e := by
  induction a generalizing st with
  | nil => simp [SAXHandlerBasic.apply_events]
  | cons ev evs ih =>
    simp only [List.cons_append, SAXHandlerBasic.apply_events]
    cases hev : SAXHandlerBasic.on_event st ev with
    | error e => rfl
    | ok st2 => exact ih st2

/-- Sequencing two event blocks whose stack effects are pure pushes. -/
theorem apply_events_seq (a b : List SAXEvent) (f g : List PyValue → List PyValue)
    (ha : ∀ st, SAXHandlerBasic.apply_events a st = .ok (f st))
    (hb : ∀ st, SAXHandlerBasic.apply_events b st = .ok (g st)) (st : List PyValue) :
    SAXHandlerBasic.apply_events (a ++ b) st = .ok (g (f st)) := by
  rw [apply_events_append, ha st]
  exact hb (f st)

theorem stack_push_items_len : ∀ (items : JItems) (st : List PyValue),
    (stack_push_items items st).length = items_len items + st.length
  | .nil, st => by simp [stack_push_items, items_len]
  | .cons v tl, st => by
    have ih := stack_push_items_len tl (to_py v :: st)
    simp only [stack_push_items, items_len, ih, List.length_cons]
    omega

theorem stack_push_members_len : ∀ (ms : JMembers) (st : List PyValue),
    (stack_push_members ms st).length = 2 * members_len ms + st.length
  | .nil, st => by simp [stack_push_members, members_len]
  | .cons n v tl, st => by
    have ih := stack_push_members_len tl (to_py v :: .pystr n :: st)
    simp only [stack_push_members, members_len, ih, List.length_cons]
    omega

/-- The array-popping loop splits over an addition of pop counts. -/
theorem end_array_fold_split (k : Nat) :
    ∀ (m : Nat) (arr : PyList) (st : List PyValue),
    SAXHandlerBasic.end_array_fold (k + m) arr st =
      match SAXHandlerBasic.end_array_fold k arr st with
      | .ok (arr2, st2) => SAXHandlerBasic.end_array_fold m arr2 st2
      | .error e => .error e := by
  induction k with
  | zero => intro m arr st; simp [SAXHandlerBasic.end_array_fold]
  | succ k ih =>
    intro m arr st
    have hk : k + 1 + m = (k + m) + 1 := by omega
    rw [hk]
    rcases st with _ | ⟨top, rest⟩
    · simp [SAXHandlerBasic.end_array_fold]
    · simp only [SAXHandlerBasic.end_array_fold]
      exact ih m (.cons top arr) rest

/-- Popping exactly the stack entries of serialized items rebuilds them in
document order in front of the accumulator. -/
theorem end_array_fold_push : ∀ (items : JItems) (arr : PyList) (st : List PyValue),
    SAXHandlerBasic.end_array_fold (items_len items) arr (stack_push_items items st) =
      .ok (pylist_concat (to_py_items items) arr, st)
  | .nil, arr, st => by
    simp [items_len, stack_push_items, SAXHandlerBasic.end_array_fold, to_py_items,
      pylist_concat]
  | .cons v tl, arr, st => by
    have ih := end_array_fold_push tl arr (to_py v :: st)
    simp only [items_len, stack_push_items, to_py_items]
    rw [end_array_fold_split (items_len tl) 1]
    rw [ih]
    simp [SAXHandlerBasic.end_array_fold, pylist_concat]

theorem pylist_concat_nil : ∀ l : PyList, pylist_concat l .nil = l
  | .nil => rfl
  | .cons a t => by
    have ih := pylist_concat_nil t
    simp [pylist_concat, ih]

/-- `on_end_array` over the stack of a serialized item list. -/
theorem on_end_array_push (items : JItems) (st : List PyValue) :
    SAXHandlerBasic.on_event (stack_push_items items st) (.on_end_array (items_len items)) =
      .ok (.pylist (to_py_items items) :: st) := by
  have hlen := stack_push_items_len items st
  have hguard : ¬(items_len items > (stack_push_items items st).length) := by omega
  simp only [SAXHandlerBasic.on_event]
  rw [if_neg hguard, end_array_fold_push items .nil st, pylist_concat_nil]

theorem dict_concat_assoc : ∀ a b c : PyDict,
    dict_concat (dict_concat a b) c = dict_concat a (dict_concat b c)
  | .nil, _, _ => rfl
  | .cons k v tl, b, c => by
    have ih := dict_concat_assoc tl b c
    simp [dict_concat, ih]

theorem to_py_members_acc : ∀ (ms : JMembers) (acc : PyDict),
    to_py_members ms acc = dict_concat (to_py_members ms .nil) acc
  | .nil, _ => rfl
  | .cons n v tl, acc => by
    have ih1 := to_py_members_acc tl (.cons (.pystr n) (to_py v) acc)
    have ih2 := to_py_members_acc tl (.cons (.pystr n) (to_py v) .nil)
    simp only [to_py_members]
    rw [ih1, ih2, dict_concat_assoc]
    rfl

theorem dict_has_concat : ∀ (a b : PyDict) (k : PyValue),
    dict_has (dict_concat a b) k = (dict_has a k || dict_has b k)
  | .nil, b, k => by simp [dict_concat, dict_has]
  | .cons k0 v0 tl, b, k => by
    have ih := dict_has_concat tl b k
    simp [dict_concat, dict_has, ih, Bool.or_assoc]

theorem dict_setitem_fresh : ∀ (d : PyDict) (k v : PyValue),
    dict_has d k = false →
    SAXHandlerBasic.dict_setitem d k v = dict_concat d (.cons k v .nil)
  | .nil, _, _, _ => rfl
  | .cons k0 v0 tl, k, v, h => by
    simp only [dict_has, decide_eq_false_iff_not, not_or] at h
    have ih := dict_setitem_fresh tl k v (by simpa using h.2)
    simp only [SAXHandlerBasic.dict_setitem, dict_concat]
    rw [if_neg h.1, ih]

theorem dict_has_to_py_members : ∀ (tl : JMembers) (m : List Char),
    m ∉ member_names tl →
    dict_has (to_py_members tl .nil) (.pystr m) = false
  | .nil, _, _ => rfl
  | .cons n v tl2, m, h => by
    have h1 : ¬(n = m) := fun he => h (by simp [member_names, he])
    have h2 : m ∉ member_names tl2 := fun hm => h (by simp [member_names, hm])
    have ih := dict_has_to_py_members tl2 m h2
    simp only [to_py_members]
    rw [to_py_members_acc tl2 (.cons (.pystr n) (to_py v) .nil)]
    rw [dict_has_concat, ih]
    simp [dict_has, h1]

/-- With pairwise-distinct member names the handler's last-member-first
`setitem` fold builds exactly the reverse-insertion-order dict the
reference translation builds. -/
theorem handler_members_fold_eq : ∀ ms : JMembers,
    names_nodup (member_names ms) = true →
    handler_members_fold ms .nil = to_py_members ms .nil
  | .nil, _ => rfl
  | .cons n v tl, h => by
    simp only [member_names, names_nodup, Bool.and_eq_true, Bool.not_eq_true'] at h
    have ih := handler_members_fold_eq tl h.2
    simp only [handler_members_fold]
    rw [ih]
    rw [dict_setitem_fresh _ _ _ (dict_has_to_py_members tl n (by simpa using h.1))]
    simp only [to_py_members]
    rw [to_py_members_acc tl (.cons (.pystr n) (to_py v) .nil)]

theorem end_object_fold_split (k : Nat) :
    ∀ (m : Nat) (obj : PyDict) (st : List PyValue),
    SAXHandlerBasic.end_object_fold (k + m) obj st =
      match SAXHandlerBasic.end_object_fold k obj st with
      | .ok (obj2, st2) => SAXHandlerBasic.end_object_fold m obj2 st2
      | .error e => .error e := by
  induction k with
  | zero => intro m obj st; simp [SAXHandlerBasic.end_object_fold]
  | succ k ih =>
    intro m obj st
    have hk : k + 1 + m = (k + m) + 1 := by omega
    rw [hk]
    rcases st with _ | ⟨x, st⟩
    · simp [SAXHandlerBasic.end_object_fold]
    · rcases st with _ | ⟨y, rest⟩
      · simp [SAXHandlerBasic.end_object_fold]
      · simp only [SAXHandlerBasic.end_object_fold]
        exact ih m (SAXHandlerBasic.dict_setitem obj y x) rest

theorem end_object_fold_push : ∀ (ms : JMembers) (obj : PyDict) (st : List PyValue),
    SAXHandlerBasic.end_object_fold (members_len ms) obj (stack_push_members ms st) =
      .ok (handler_members_fold ms obj, st)
  | .nil, obj, st => by
    simp [members_len, stack_push_members, SAXHandlerBasic.end_object_fold,
      handler_members_fold]
  | .cons n v tl, obj, st => by
    have ih := end_object_fold_push tl obj (to_py v :: .pystr n :: st)
    simp only [members_len, stack_push_members, handler_members_fold]
    rw [end_object_fold_split (members_len tl) 1]
    rw [ih]
    simp [SAXHandlerBasic.end_object_fold]

/-- `on_end_object` over the stack of a serialized member list with
pairwise-distinct names. -/
theorem on_end_object_push (ms : JMembers) (st : List PyValue)
    (h : names_nodup (member_names ms) = true) :
    SAXHandlerBasic.on_event (stack_push_members ms st) (.on_end_object (members_len ms)) =
      .ok (.pydict (to_py_members ms .nil) :: st) := by
  have hlen := stack_push_members_len ms st
  have hguard : ¬(members_len ms * 2 > (stack_push_members ms st).length) := by omega
  simp only [SAXHandlerBasic.on_event]
  rw [if_neg hguard, end_object_fold_push ms .nil st, handler_members_fold_eq ms h]

theorem bound_value_pos (v : JValue) : 1 ≤ bound_value v := by
  cases v <;> simp [bound_value] <;> omega

theorem sep_ok_items_rest (tl : JItems) (rest : List Char) :
    sep_ok (serialize_items_rest tl ++ ']' :: rest) = true := by
  cases tl <;> simp only [serialize_items_rest, List.cons_append, List.nil_append] <;>
    simp [sep_ok]

theorem sep_ok_members_rest (tl : JMembers) (rest : List Char) :
    sep_ok (serialize_members_rest tl ++ '\x7d' :: rest) = true := by
  cases tl <;> simp only [serialize_members_rest, List.cons_append, List.nil_append] <;>
    simp [sep_ok]

/-- The first token of any serialized value is never an array closer. -/
theorem value_started_ne_end_array (v : JValue) (p : ParserState) (rest : List Char)
    (h : value_started v p rest) : ¬(SAXParser.curr_token p = .END_ARRAY) := by
  cases v with
  | jnull => obtain ⟨⟨pos, hc⟩, -⟩ := h; simp [SAXParser.curr_token, hc]
  | jbool b =>
    cases b with
    | true => obtain ⟨⟨pos, hc⟩, -⟩ := h; simp [SAXParser.curr_token, hc]
    | false => obtain ⟨⟨pos, hc⟩, -⟩ := h; simp [SAXParser.curr_token, hc]
  | jnum t =>
    obtain ⟨⟨pos, hc⟩, -⟩ := h
    simp only [SAXParser.curr_token, hc]
    cases num_classify t <;> simp [tok_of_kind]
  | jstr t => obtain ⟨⟨pos, hc⟩, -⟩ := h; simp [SAXParser.curr_token, hc]
  | jarr items => obtain ⟨⟨pos, hc⟩, -⟩ := h; simp [SAXParser.curr_token, hc]
  | jobj ms => obtain ⟨⟨pos, hc⟩, -⟩ := h; simp [SAXParser.curr_token, hc]

theorem num_token_ok_classify (t : List Char) (h : num_token_ok t = true) :
    ¬(num_classify t = .NT_UNKNOWN) := by
  simp only [num_token_ok, Bool.and_eq_true] at h
  have h2 := h.2
  rcases hfa : np_feed_all NumericParser.init t with _ | np
  · rw [hfa] at h2; simp at h2
  · rw [hfa] at h2
    simp only [decide_eq_true_eq] at h2
    simp only [num_classify, hfa]
    exact h2.1

theorem num_token_ok_ne_nil (t : List Char) (h : num_token_ok t = true) : t ≠ [] := by
  intro he
  subst he
  simp [num_token_ok] at h

theorem on_event_tp (st : List PyValue) (pos : TextPos) :
    SAXHandlerBasic.on_event st (.textpos_changed pos) = .ok st := rfl

theorem on_event_member_name (st : List PyValue) (nm : List Char) :
    SAXHandlerBasic.on_event st (.on_member_name nm) = .ok (.pystr nm :: st) := rfl

theorem on_event_begin_array (st : List PyValue) :
    SAXHandlerBasic.on_event st .on_begin_array = .ok st := rfl

theorem on_event_begin_object (st : List PyValue) :
    SAXHandlerBasic.on_event st .on_begin_object = .ok st := rfl

theorem apply_cons (ev : SAXEvent) (evs : List SAXEvent) (st st2 : List PyValue)
    (h : SAXHandlerBasic.on_event st ev = .ok st2) :
    SAXHandlerBasic.apply_events (ev :: evs) st = SAXHandlerBasic.apply_events evs st2 := by
  simp [SAXHandlerBasic.apply_events, h]

theorem apply_events_append_ok (a b : List SAXEvent) (st st2 : List PyValue)
    (h : SAXHandlerBasic.apply_events a st = .ok st2) :
    SAXHandlerBasic.apply_events (a ++ b) st = SAXHandlerBasic.apply_events b st2 := by
  rw [apply_events_append, h]

theorem apply_events_nil (st : List PyValue) :
    SAXHandlerBasic.apply_events [] st = .ok st := rfl

/-- The round-trip workhorse, by induction on parser fuel: from the
parser state holding the first lexeme of a serialized value, each parsing
routine succeeds, appends to the handler-call record an event block whose
effect on every stack is exactly pushing the translated value, and leaves
the lexer at the boundary following the value. -/
theorem parse_round (fuel : Nat) :
    (∀ (v : JValue) (p : ParserState) (rest : List Char),
      wf_value v = true → value_started v p rest → bound_value v ≤ fuel →
      ∃ p2 Δ, SAXParser.parse_value fuel p = .ok p2 ∧
        p2.events = p.events ++ Δ ∧
        (∀ st, SAXHandlerBasic.apply_events Δ st = .ok (to_py v :: st)) ∧
        boundary p2.lx rest) ∧
    (∀ (items : JItems) (p : ParserState) (rest : List Char),
      wf_items items = true → SAXParser.curr_token p = .BEGIN_ARRAY →
      acc_at p.lx (serialize_items items ++ ']' :: rest) →
      1 + bound_items items ≤ fuel →
      ∃ p2 Δ, SAXParser.parse_array fuel p = .ok p2 ∧
        p2.events = p.events ++ Δ ∧
        (∀ st, SAXHandlerBasic.apply_events Δ st =
          .ok (.pylist (to_py_items items) :: st)) ∧
        acc_at p2.lx rest) ∧
    (∀ (ms : JMembers) (p : ParserState) (rest : List Char),
      wf_members ms = true → names_nodup (member_names ms) = true →
      SAXParser.curr_token p = .BEGIN_OBJECT →
      acc_at p.lx (serialize_members ms ++ '\x7d' :: rest) →
      1 + bound_members ms ≤ fuel →
      ∃ p2 Δ, SAXParser.parse_object fuel p = .ok p2 ∧
        p2.events = p.events ++ Δ ∧
        (∀ st, SAXHandlerBasic.apply_events Δ st =
          .ok (.pydict (to_py_members ms .nil) :: st)) ∧
        acc_at p2.lx rest) ∧
    (∀ (v : JValue) (items : JItems) (p : ParserState) (rest : List Char) (count : Nat),
      wf_value v = true → wf_items items = true →
      value_started v p (serialize_items_rest items ++ ']' :: rest) →
      bound_value v + bound_items items + 1 ≤ fuel →
      ∃ p2 Δ, SAXParser.parse_array_items fuel count p =
          .ok (count + 1 + items_len items, p2) ∧
        p2.events = p.events ++ Δ ∧
        (∀ st, SAXHandlerBasic.apply_events Δ st =
          .ok (stack_push_items items (to_py v :: st))) ∧
        SAXParser.curr_token p2 = .END_ARRAY ∧ acc_at p2.lx rest) ∧
    (∀ (nm : List Char) (v : JValue) (tl : JMembers) (p : ParserState) (rest : List Char)
        (count : Nat),
      wf_value v = true → wf_members tl = true →
      (∃ pos, p.curr = some ⟨pos, .STRING, nm, .LT_UNKNOWN, .NT_UNKNOWN⟩) →
      acc_at p.lx
        (':' :: (serialize_value v ++ (serialize_members_rest tl ++ '\x7d' :: rest))) →
      bound_value v + bound_members tl + 1 ≤ fuel →
      ∃ p2 Δ, SAXParser.parse_object_members fuel count p =
          .ok (count + 1 + members_len tl, p2) ∧
        p2.events = p.events ++ Δ ∧
        (∀ st, SAXHandlerBasic.apply_events Δ st =
          .ok (stack_push_members tl (to_py v :: .pystr nm :: st))) ∧
        SAXParser.curr_token p2 = .END_OBJECT ∧ acc_at p2.lx rest) := by
  induction fuel with
  | zero =>
    refine ⟨?_, ?_, ?_, ?_, ?_⟩
    · intro v p rest _ _ hb
      have := bound_value_pos v
      omega
    · intro items p rest _ _ _ hb
      omega
    · intro ms p rest _ _ _ _ hb
      omega
    · intro v items p rest count _ _ _ hb
      omega
    · intro nm v tl p rest count _ _ _ _ hb
      omega
  | succ fuel ih =>
    obtain ⟨ihA, ihArr, ihObj, ihB, ihC⟩ := ih
    refine ⟨?_, ?_, ?_, ?_, ?_⟩
    · -- parse_value
      intro v p rest hwf hvs hb
      cases v with
      | jnull =>
        obtain ⟨⟨pos, hc⟩, hstop⟩ := hvs
        have hct : SAXParser.curr_token p = .LITERAL_NULL := by
          simp [SAXParser.curr_token, hc]
        refine ⟨SAXParser.emit p (.on_literal .LT_NULL "null".toList),
          [.on_literal .LT_NULL "null".toList], ?_, rfl, ?_,
          scalar_stop_boundary _ _ hstop⟩
        · simp [SAXParser.parse_value, hct, SAXParser.parse_literal, hc]
        · intro st
          simp [SAXHandlerBasic.apply_events, SAXHandlerBasic.on_event, to_py]
      | jbool b =>
        cases b with
        | true =>
          obtain ⟨⟨pos, hc⟩, hstop⟩ := hvs
          have hct : SAXParser.curr_token p = .LITERAL_TRUE := by
            simp [SAXParser.curr_token, hc]
          refine ⟨SAXParser.emit p (.on_literal .LT_TRUE "true".toList),
            [.on_literal .LT_TRUE "true".toList], ?_, rfl, ?_,
            scalar_stop_boundary _ _ hstop⟩
          · simp [SAXParser.parse_value, hct, SAXParser.parse_literal, hc]
          · intro st
            simp [SAXHandlerBasic.apply_events, SAXHandlerBasic.on_event, to_py]
        | false =>
          obtain ⟨⟨pos, hc⟩, hstop⟩ := hvs
          have hct : SAXParser.curr_token p = .LITERAL_FALSE := by
            simp [SAXParser.curr_token, hc]
          refine ⟨SAXParser.emit p (.on_literal .LT_FALSE "false".toList),
            [.on_literal .LT_FALSE "false".toList], ?_, rfl, ?_,
            scalar_stop_boundary _ _ hstop⟩
          · simp [SAXParser.parse_value, hct, SAXParser.parse_literal, hc]
          · intro st
            simp [SAXHandlerBasic.apply_events, SAXHandlerBasic.on_event, to_py]
      | jnum t =>
        obtain ⟨⟨pos, hc⟩, hstop⟩ := hvs
        have hwf' : num_token_ok t = true := by simpa [wf_value] using hwf
        have hne := num_token_ok_classify t hwf'
        rcases hcl : num_classify t with _ | _ | _ | _
        · exact absurd hcl hne
        · rw [hcl] at hc
          have hct : SAXParser.curr_token p = .NUMBER_INT := by
            simp [SAXParser.curr_token, hc, tok_of_kind]
          refine ⟨SAXParser.emit p (.on_number .NT_INTEGER t), [.on_number .NT_INTEGER t],
            ?_, rfl, ?_, scalar_stop_boundary _ _ hstop⟩
          · simp [SAXParser.parse_value, hct, SAXParser.parse_number, hc, tok_of_kind]
          · intro st
            simp [SAXHandlerBasic.apply_events, SAXHandlerBasic.on_event, to_py, hcl]
        · rw [hcl] at hc
          have hct : SAXParser.curr_token p = .NUMBER_DECIMAL := by
            simp [SAXParser.curr_token, hc, tok_of_kind]
          refine ⟨SAXParser.emit p (.on_number .NT_FLOAT t), [.on_number .NT_FLOAT t],
            ?_, rfl, ?_, scalar_stop_boundary _ _ hstop⟩
          · simp [SAXParser.parse_value, hct, SAXParser.parse_number, hc, tok_of_kind]
          · intro st
            simp [SAXHandlerBasic.apply_events, SAXHandlerBasic.on_event, to_py, hcl]
        · rw [hcl] at hc
          have hct : SAXParser.curr_token p = .NUMBER_FLOAT := by
            simp [SAXParser.curr_token, hc, tok_of_kind]
          refine ⟨SAXParser.emit p (.on_number .NT_FLOAT t), [.on_number .NT_FLOAT t],
            ?_, rfl, ?_, scalar_stop_boundary _ _ hstop⟩
          · simp [SAXParser.parse_value, hct, SAXParser.parse_number, hc, tok_of_kind]
          · intro st
            simp [SAXHandlerBasic.apply_events, SAXHandlerBasic.on_event, to_py, hcl]
      | jstr t =>
        obtain ⟨⟨pos, hc⟩, hacc⟩ := hvs
        have hct : SAXParser.curr_token p = .STRING := by
          simp [SAXParser.curr_token, hc]
        refine ⟨SAXParser.emit p (.on_string t), [.on_string t],
          ?_, rfl, ?_, acc_boundary _ _ hacc⟩
        · simp [SAXParser.parse_value, hct, SAXParser.parse_string, hc]
        · intro st
          simp [SAXHandlerBasic.apply_events, SAXHandlerBasic.on_event, to_py]
      | jarr items =>
        obtain ⟨⟨pos, hc⟩, hacc⟩ := hvs
        have hct : SAXParser.curr_token p = .BEGIN_ARRAY := by
          simp [SAXParser.curr_token, hc]
        have hwf' : wf_items items = true := by simpa [wf_value] using hwf
        obtain ⟨p2, Δ, hrun, hev, happ, hacc2⟩ := ihArr items p rest hwf' hct hacc
          (by simp only [bound_value] at hb; omega)
        refine ⟨p2, Δ, ?_, hev, ?_, acc_boundary _ _ hacc2⟩
        · simp only [SAXParser.parse_value]
          rw [if_pos hct]
          exact hrun
        · intro st
          simp only [to_py]
          exact happ st
      | jobj ms =>
        obtain ⟨⟨pos, hc⟩, hacc⟩ := hvs
        have hct : SAXParser.curr_token p = .BEGIN_OBJECT := by
          simp [SAXParser.curr_token, hc]
        have hwf' : wf_members ms = true ∧ names_nodup (member_names ms) = true := by
          simpa [wf_value, Bool.and_eq_true] using hwf
        obtain ⟨p2, Δ, hrun, hev, happ, hacc2⟩ := ihObj ms p rest hwf'.1 hwf'.2 hct hacc
          (by simp only [bound_value] at hb; omega)
        refine ⟨p2, Δ, ?_, hev, ?_, acc_boundary _ _ hacc2⟩
        · simp only [SAXParser.parse_value]
          rw [if_neg (by simp [hct]), if_pos hct]
          exact hrun
        · intro st
          simp only [to_py]
          exact happ st
    · -- parse_array
      intro items p rest hwf hct hacc hb
      cases items with
      | nil =>
        have hacc' : acc_at p.lx (']' :: rest) := by
          simpa [serialize_items] using hacc
        obtain ⟨pos1, st1, hlex, hacc1⟩ := nl_structural p.lx ']' rest .END_ARRAY
          (acc_ready _ _ hacc') rfl
        have hnl := pnext_some (SAXParser.emit p .on_begin_array) _ st1 hlex
        have hct1 : SAXParser.curr_token ⟨st1,
            some ⟨pos1, .END_ARRAY, [']'], .LT_UNKNOWN, .NT_UNKNOWN⟩,
            (SAXParser.emit p .on_begin_array).events ++ [.textpos_changed st1.pos]⟩
            = .END_ARRAY := rfl
        refine ⟨SAXParser.emit ⟨st1,
            some ⟨pos1, .END_ARRAY, [']'], .LT_UNKNOWN, .NT_UNKNOWN⟩,
            (SAXParser.emit p .on_begin_array).events ++ [.textpos_changed st1.pos]⟩
            (.on_end_array 0),
          [.on_begin_array, .textpos_changed st1.pos, .on_end_array 0],
          ?_, ?_, ?_, hacc1⟩
        · simp [SAXParser.parse_array, hct, hnl, SAXParser.end_array_check, hct1]
        · simp [SAXParser.emit]
        · intro st
          simp [SAXHandlerBasic.apply_events, SAXHandlerBasic.on_event,
            SAXHandlerBasic.end_array_fold, to_py_items]
      | cons v tl =>
        have hwf' : wf_value v = true ∧ wf_items tl = true := by
          simpa [wf_items, Bool.and_eq_true] using hwf
        have hready : ready_at p.lx
            (serialize_value v ++ (serialize_items_rest tl ++ ']' :: rest)) := by
          have := acc_ready _ _ hacc
          simpa [serialize_items, List.append_assoc] using this
        obtain ⟨p1, hnl1, hvs1, hev1⟩ := value_first v (SAXParser.emit p .on_begin_array)
          (serialize_items_rest tl ++ ']' :: rest) hwf'.1 hready
          (sep_ok_items_rest tl rest)
        have hne := value_started_ne_end_array v p1 _ hvs1
        obtain ⟨p2, Δi, hrun2, hev2, happ2, hct2, hacc2⟩ := ihB v tl p1 rest 0
          hwf'.1 hwf'.2 hvs1 (by simp only [bound_items] at hb; omega)
        have hn : 0 + 1 + items_len tl = items_len (JItems.cons v tl) := by
          simp [items_len]; omega
        rw [hn] at hrun2
        refine ⟨SAXParser.emit p2 (.on_end_array (items_len (JItems.cons v tl))),
          .on_begin_array :: .textpos_changed p1.lx.pos ::
            (Δi ++ [.on_end_array (items_len (JItems.cons v tl))]),
          ?_, ?_, ?_, hacc2⟩
        · simp [SAXParser.parse_array, hct, hnl1, hne, hrun2,
            SAXParser.end_array_check, hct2]
        · simp only [SAXParser.emit, hev2, hev1, SAXParser.emit, List.append_assoc,
            List.cons_append, List.nil_append]
        · intro st
          rw [apply_cons _ _ _ _ (on_event_begin_array st),
            apply_cons _ _ _ _ (on_event_tp st p1.lx.pos),
            apply_events_append_ok _ _ _ _ (happ2 st)]
          have hpush : stack_push_items tl (to_py v :: st) =
              stack_push_items (JItems.cons v tl) st := rfl
          rw [hpush, apply_cons _ _ _ _ (on_end_array_push (JItems.cons v tl) st)]
          simp [apply_events_nil, to_py_items]
    · -- parse_object
      intro ms p rest hwf hnd hct hacc hb
      cases ms with
      | nil =>
        have hacc' : acc_at p.lx ('\x7d' :: rest) := by
          simpa [serialize_members] using hacc
        obtain ⟨pos1, st1, hlex, hacc1⟩ := nl_structural p.lx '\x7d' rest .END_OBJECT
          (acc_ready _ _ hacc') rfl
        have hnl := pnext_some (SAXParser.emit p .on_begin_object) _ st1 hlex
        have hct1 : SAXParser.curr_token ⟨st1,
            some ⟨pos1, .END_OBJECT, ['\x7d'], .LT_UNKNOWN, .NT_UNKNOWN⟩,
            (SAXParser.emit p .on_begin_object).events ++ [.textpos_changed st1.pos]⟩
            = .END_OBJECT := rfl
        refine ⟨SAXParser.emit ⟨st1,
            some ⟨pos1, .END_OBJECT, ['\x7d'], .LT_UNKNOWN, .NT_UNKNOWN⟩,
            (SAXParser.emit p .on_begin_object).events ++ [.textpos_changed st1.pos]⟩
            (.on_end_object 0),
          [.on_begin_object, .textpos_changed st1.pos, .on_end_object 0],
          ?_, ?_, ?_, hacc1⟩
        · simp [SAXParser.parse_object, hct, hnl, SAXParser.end_object_check, hct1]
        · simp [SAXParser.emit]
        · intro st
          simp [SAXHandlerBasic.apply_events, SAXHandlerBasic.on_event,
            SAXHandlerBasic.end_object_fold, to_py_members]
      | cons nm v tl =>
        have hwf' : str_ok nm = true ∧ wf_value v = true ∧ wf_members tl = true := by
          simpa [wf_members, Bool.and_eq_true, and_assoc] using hwf
        have hready : ready_at p.lx ('"' :: (nm ++ '"' ::
            (':' :: (serialize_value v ++ (serialize_members_rest tl ++ '\x7d' :: rest))))) := by
          have := acc_ready _ _ hacc
          simpa [serialize_members, List.append_assoc] using this
        obtain ⟨pos1, st1, hlex, hacc1⟩ := nl_string p.lx nm
          (':' :: (serialize_value v ++ (serialize_members_rest tl ++ '\x7d' :: rest)))
          hready hwf'.1
        have hnl := pnext_some (SAXParser.emit p .on_begin_object) _ st1 hlex
        have hct1 : SAXParser.curr_token ⟨st1,
            some ⟨pos1, .STRING, nm, .LT_UNKNOWN, .NT_UNKNOWN⟩,
            p.events ++ [.on_begin_object, .textpos_changed st1.pos]⟩ = .STRING := rfl
        obtain ⟨p2, Δm, hrun2, hev2, happ2, hct2, hacc2⟩ := ihC nm v tl
          ⟨st1, some ⟨pos1, .STRING, nm, .LT_UNKNOWN, .NT_UNKNOWN⟩,
            p.events ++ [.on_begin_object, .textpos_changed st1.pos]⟩
          rest 0 hwf'.2.1 hwf'.2.2 ⟨pos1, rfl⟩ hacc1
          (by simp only [bound_members] at hb; omega)
        have hn : 0 + 1 + members_len tl = members_len (JMembers.cons nm v tl) := by
          simp [members_len]; omega
        rw [hn] at hrun2
        simp only [SAXParser.emit] at hnl
        refine ⟨SAXParser.emit p2 (.on_end_object (members_len (JMembers.cons nm v tl))),
          .on_begin_object :: .textpos_changed st1.pos ::
            (Δm ++ [.on_end_object (members_len (JMembers.cons nm v tl))]),
          ?_, ?_, ?_, hacc2⟩
        · simp [SAXParser.parse_object, hct, hnl, hrun2, SAXParser.emit,
            SAXParser.end_object_check, hct2, hct1]
        · simp only [SAXParser.emit, hev2, List.append_assoc, List.cons_append,
            List.nil_append]
        · intro st
          rw [apply_cons _ _ _ _ (on_event_begin_object st),
            apply_cons _ _ _ _ (on_event_tp st st1.pos),
            apply_events_append_ok _ _ _ _ (happ2 st)]
          have hpush : stack_push_members tl (to_py v :: .pystr nm :: st) =
              stack_push_members (JMembers.cons nm v tl) st := rfl
          rw [hpush, apply_cons _ _ _ _ (on_end_object_push (JMembers.cons nm v tl) st hnd)]
          simp [apply_events_nil]
    · -- parse_array_items
      intro v items p rest count hwfv hwfi hvs hb
      obtain ⟨q1, Δv, hpv, hev1, happ1, hbound1⟩ := ihA v p
        (serialize_items_rest items ++ ']' :: rest) hwfv hvs (by omega)
      cases items with
      | nil =>
        have hbound' : boundary q1.lx (']' :: rest) := by
          simpa [serialize_items_rest] using hbound1
        obtain ⟨pos2, st2, hlex2, hacc2⟩ := nl_structural q1.lx ']' rest .END_ARRAY
          (boundary_ready_cons _ _ _ hbound') rfl
        have hnl2 := pnext_some q1 _ st2 hlex2
        refine ⟨⟨st2, some ⟨pos2, .END_ARRAY, [']'], .LT_UNKNOWN, .NT_UNKNOWN⟩,
            q1.events ++ [.textpos_changed st2.pos]⟩,
          Δv ++ [.textpos_changed st2.pos], ?_, ?_, ?_, ?_, hacc2⟩
        · simp [SAXParser.parse_array_items, hpv, hnl2, SAXParser.curr_token, items_len]
        · simp [hev1, List.append_assoc]
        · intro st
          rw [apply_events_append_ok _ _ _ _ (happ1 st),
            apply_cons _ _ _ _ (on_event_tp _ st2.pos)]
          simp [stack_push_items, apply_events_nil]
        · simp [SAXParser.curr_token]
      | cons w tl =>
        have hwf' : wf_value w = true ∧ wf_items tl = true := by
          simpa [wf_items, Bool.and_eq_true] using hwfi
        have hbound' : boundary q1.lx (',' ::
            (serialize_value w ++ (serialize_items_rest tl ++ ']' :: rest))) := by
          simpa [serialize_items_rest, List.append_assoc] using hbound1
        obtain ⟨pos2, st2, hlex2, hacc2⟩ := nl_structural q1.lx ','
          (serialize_value w ++ (serialize_items_rest tl ++ ']' :: rest))
          .VALUE_SEPARATOR (boundary_ready_cons _ _ _ hbound') rfl
        have hnl2 := pnext_some q1 _ st2 hlex2
        obtain ⟨q3, hnl3, hvs3, hev3⟩ := value_first w
          ⟨st2, some ⟨pos2, .VALUE_SEPARATOR, [','], .LT_UNKNOWN, .NT_UNKNOWN⟩,
            q1.events ++ [.textpos_changed st2.pos]⟩
          (serialize_items_rest tl ++ ']' :: rest) hwf'.1 (acc_ready _ _ hacc2)
          (sep_ok_items_rest tl rest)
        obtain ⟨p2, Δi, hrun2, hev2, happ2, hct2, hacc3⟩ := ihB w tl q3 rest (count + 1)
          hwf'.1 hwf'.2 hvs3 (by
            have h1 := bound_value_pos v
            simp only [bound_items] at hb
            omega)
        have hn : count + 1 + 1 + items_len tl = count + 1 + items_len (JItems.cons w tl) := by
          simp [items_len]; omega
        rw [hn] at hrun2
        refine ⟨p2, Δv ++ .textpos_changed st2.pos :: .textpos_changed q3.lx.pos :: Δi,
          ?_, ?_, ?_, hct2, hacc3⟩
        · simp [SAXParser.parse_array_items, hpv, hnl2, SAXParser.curr_token, hnl3, hrun2]
        · rw [hev2, hev3]
          simp [hev1, List.append_assoc]
        · intro st
          rw [apply_events_append_ok _ _ _ _ (happ1 st),
            apply_cons _ _ _ _ (on_event_tp _ st2.pos),
            apply_cons _ _ _ _ (on_event_tp _ q3.lx.pos),
            happ2 (to_py v :: st)]
          simp [stack_push_items]
    · -- parse_object_members
      intro nm v tl p rest count hwfv hwft hcurr hacc hb
      obtain ⟨pos0, hc0⟩ := hcurr
      obtain ⟨pos1, st1, hlex1, hacc1⟩ := nl_structural p.lx ':'
        (serialize_value v ++ (serialize_members_rest tl ++ '\x7d' :: rest))
        .NAME_SEPARATOR (acc_ready _ _ hacc) rfl
      have hnl1 := pnext_some (SAXParser.emit p (.on_member_name nm)) _ st1 hlex1
      obtain ⟨q2, hnl2, hvs2, hev2⟩ := value_first v
        ⟨st1, some ⟨pos1, .NAME_SEPARATOR, [':'], .LT_UNKNOWN, .NT_UNKNOWN⟩,
          (SAXParser.emit p (.on_member_name nm)).events ++ [.textpos_changed st1.pos]⟩
        (serialize_members_rest tl ++ '\x7d' :: rest) hwfv (acc_ready _ _ hacc1)
        (sep_ok_members_rest tl rest)
      obtain ⟨q3, Δv, hpv, hev3, happ3, hbound3⟩ := ihA v q2
        (serialize_members_rest tl ++ '\x7d' :: rest) hwfv hvs2 (by omega)
      cases tl with
      | nil =>
        have hbound' : boundary q3.lx ('\x7d' :: rest) := by
          simpa [serialize_members_rest] using hbound3
        obtain ⟨pos4, st4, hlex4, hacc4⟩ := nl_structural q3.lx '\x7d' rest .END_OBJECT
          (boundary_ready_cons _ _ _ hbound') rfl
        have hnl4 := pnext_some q3 _ st4 hlex4
        refine ⟨⟨st4, some ⟨pos4, .END_OBJECT, ['\x7d'], .LT_UNKNOWN, .NT_UNKNOWN⟩,
            q3.events ++ [.textpos_changed st4.pos]⟩,
          .on_member_name nm :: .textpos_changed st1.pos :: .textpos_changed q2.lx.pos ::
            (Δv ++ [.textpos_changed st4.pos]),
          ?_, ?_, ?_, ?_, hacc4⟩
        · simp [SAXParser.parse_object_members, hc0, hnl1, SAXParser.curr_token,
            hnl2, hpv, hnl4, members_len]
        · rw [hev3, hev2]
          simp [SAXParser.emit, List.append_assoc]
        · intro st
          rw [apply_cons _ _ _ _ (on_event_member_name st nm),
            apply_cons _ _ _ _ (on_event_tp _ st1.pos),
            apply_cons _ _ _ _ (on_event_tp _ q2.lx.pos),
            apply_events_append_ok _ _ _ _ (happ3 _),
            apply_cons _ _ _ _ (on_event_tp _ st4.pos)]
          simp [stack_push_members, apply_events_nil]
        · simp [SAXParser.curr_token]
      | cons nm2 v2 tl2 =>
        have hwf' : str_ok nm2 = true ∧ wf_value v2 = true ∧ wf_members tl2 = true := by
          simpa [wf_members, Bool.and_eq_true, and_assoc] using hwft
        have hbound' : boundary q3.lx (',' ::
            (('"' :: (nm2 ++ '"' :: (':' :: (serialize_value v2 ++
              (serialize_members_rest tl2 ++ '\x7d' :: rest))))))) := by
          simpa [serialize_members_rest, List.append_assoc] using hbound3
        obtain ⟨pos4, st4, hlex4, hacc4⟩ := nl_structural q3.lx ','
          ('"' :: (nm2 ++ '"' :: (':' :: (serialize_value v2 ++
            (serialize_members_rest tl2 ++ '\x7d' :: rest)))))
          .VALUE_SEPARATOR (boundary_ready_cons _ _ _ hbound') rfl
        have hnl4 := pnext_some q3 _ st4 hlex4
        obtain ⟨pos5, st5, hlex5, hacc5⟩ := nl_string st4 nm2
          (':' :: (serialize_value v2 ++ (serialize_members_rest tl2 ++ '\x7d' :: rest)))
          (acc_ready _ _ hacc4) hwf'.1
        have hnl5 := pnext_some
          ⟨st4, some ⟨pos4, .VALUE_SEPARATOR, [','], .LT_UNKNOWN, .NT_UNKNOWN⟩,
            q3.events ++ [.textpos_changed st4.pos]⟩ _ st5 hlex5
        obtain ⟨p2, Δm, hrun2, hev5, happ5, hct2, hacc6⟩ := ihC nm2 v2 tl2
          ⟨st5, some ⟨pos5, .STRING, nm2, .LT_UNKNOWN, .NT_UNKNOWN⟩,
            q3.events ++ [.textpos_changed st4.pos, .textpos_changed st5.pos]⟩
          rest (count + 1) hwf'.2.1 hwf'.2.2 ⟨pos5, rfl⟩ hacc5
          (by
            have h1 := bound_value_pos v
            simp only [bound_members] at hb
            omega)
        have hn : count + 1 + 1 + members_len tl2 =
            count + 1 + members_len (JMembers.cons nm2 v2 tl2) := by
          simp [members_len]; omega
        rw [hn] at hrun2
        refine ⟨p2, .on_member_name nm :: .textpos_changed st1.pos ::
            .textpos_changed q2.lx.pos ::
            (Δv ++ .textpos_changed st4.pos :: .textpos_changed st5.pos :: Δm),
          ?_, ?_, ?_, hct2, hacc6⟩
        · simp [SAXParser.parse_object_members, hc0, hnl1, SAXParser.curr_token,
            hnl2, hpv, hnl4, hnl5, hrun2]
        · rw [hev5]
          simp [hev3, hev2, SAXParser.emit, List.append_assoc]
        · intro st
          rw [apply_cons _ _ _ _ (on_event_member_name st nm),
            apply_cons _ _ _ _ (on_event_tp _ st1.pos),
            apply_cons _ _ _ _ (on_event_tp _ q2.lx.pos),
            apply_events_append_ok _ _ _ _ (happ3 _),
            apply_cons _ _ _ _ (on_event_tp _ st4.pos),
            apply_cons _ _ _ _ (on_event_tp _ st5.pos),
            happ5 (to_py v :: .pystr nm :: st)]
          simp [stack_push_members]

/-!  Fuel bounds: the canonical serialization is long enough that `run`'s
fuel `2 * length + 8` always covers the recursion the value drives. -/

mutual

theorem bound_le_serialize : ∀ v : JValue, wf_value v = true →
    bound_value v + 1 ≤ 2 * (serialize_value v).length
  | .jnull, _ => by decide
  | .jbool true, _ => by decide
  | .jbool false, _ => by decide
  | .jnum t, h => by
    have hne : t ≠ [] := num_token_ok_ne_nil t (by simpa [wf_value] using h)
    have hpos : 0 < t.length := List.length_pos.mpr hne
    simp only [bound_value, serialize_value]
    omega
  | .jstr t, _ => by
    simp only [bound_value, serialize_value, List.length_cons, List.length_append]
    omega
  | .jarr items, h => by
    have h1 := bound_items_le items (by simpa [wf_value] using h)
    simp only [bound_value, serialize_value, List.length_cons, List.length_append]
    omega
  | .jobj ms, h => by
    have hw : wf_members ms = true := by
      simp only [wf_value, Bool.and_eq_true] at h
      exact h.1
    have h1 := bound_members_le ms hw
    simp only [bound_value, serialize_value, List.length_cons, List.length_append]
    omega

theorem bound_items_le : ∀ items : JItems, wf_items items = true →
    bound_items items ≤ 2 * (serialize_items items).length
  | .nil, _ => by decide
  | .cons v tl, h => by
    have h' : wf_value v = true ∧ wf_items tl = true := by
      simpa [wf_items, Bool.and_eq_true] using h
    have h1 := bound_le_serialize v h'.1
    have h2 := bound_items_rest_le tl h'.2
    simp only [bound_items, serialize_items, List.length_append]
    omega

theorem bound_items_rest_le : ∀ items : JItems, wf_items items = true →
    bound_items items ≤ 2 * (serialize_items_rest items).length
  | .nil, _ => by decide
  | .cons v tl, h => by
    have h' : wf_value v = true ∧ wf_items tl = true := by
      simpa [wf_items, Bool.and_eq_true] using h
    have h1 := bound_le_serialize v h'.1
    have h2 := bound_items_rest_le tl h'.2
    simp only [bound_items, serialize_items_rest, List.length_cons, List.length_append]
    omega

theorem bound_members_le : ∀ ms : JMembers, wf_members ms = true →
    bound_members ms ≤ 2 * (serialize_members ms).length
  | .nil, _ => by decide
  | .cons n v tl, h => by
    have h' : str_ok n = true ∧ wf_value v = true ∧ wf_members tl = true := by
      simpa [wf_members, Bool.and_eq_true, and_assoc] using h
    have h1 := bound_le_serialize v h'.2.1
    have h2 := bound_members_rest_le tl h'.2.2
    simp only [bound_members, serialize_members, List.length_cons, List.length_append]
    omega

theorem bound_members_rest_le : ∀ ms : JMembers, wf_members ms = true →
    bound_members ms ≤ 2 * (serialize_members_rest ms).length
  | .nil, _ => by decide
  | .cons n v tl, h => by
    have h' : str_ok n = true ∧ wf_value v = true ∧ wf_members tl = true := by
      simpa [wf_members, Bool.and_eq_true, and_assoc] using h
    have h1 := bound_le_serialize v h'.2.1
    have h2 := bound_members_rest_le tl h'.2.2
    simp only [bound_members, serialize_members_rest, List.length_cons,
      List.length_append]
    omega

end

/-- A whole `run` over the canonical serialization of a well-formed
value: the parse succeeds and its recorded handler calls push exactly the
translated value onto any stack. -/
theorem run_serialize (v : JValue) (hwf : wf_value v = true) :
    ∃ p2, SAXParser.run (serialize_value v) = .ok p2 ∧
      ∀ st, SAXHandlerBasic.apply_events p2.events st = .ok (to_py v :: st) := by
  have hlen := bound_le_serialize v hwf
  have hready : ready_at (Lexer.init_lexer (serialize_value v))
      (serialize_value v ++ []) := by
    simp only [List.append_nil]
    exact ⟨rfl, Or.inl ⟨Or.inr rfl, rfl⟩⟩
  obtain ⟨p1, hnl1, hvs1, hev1⟩ := value_first v
    (SAXParser.parser_init (serialize_value v)) [] hwf hready rfl
  obtain ⟨p2, Δv, hpv, hev2, happ2, hbound2⟩ :=
    (parse_round (2 * (serialize_value v).length + 7)).1 v p1 [] hwf hvs1 (by omega)
  obtain ⟨s3, hnl3, heof3⟩ := boundary_nil_end p2.lx hbound2
  have hnl4 := pnext_none p2 s3 hnl3
  have e8 : 2 * (serialize_value v).length + 8 = 2 * (serialize_value v).length + 7 + 1 := by
    omega
  refine ⟨⟨s3, none, p2.events⟩, ?_, ?_⟩
  · have hr : SAXParser.run (serialize_value v) =
        SAXParser.parse_doc (2 * (serialize_value v).length + 8)
          (SAXParser.parser_init (serialize_value v)) := rfl
    rw [hr, e8]
    simp [SAXParser.parse_doc, hnl1, hpv, SAXParser.parse_doc_end, hnl4, heof3]
  · intro st
    rw [hev2, hev1]
    have h1 : SAXHandlerBasic.apply_events
        [SAXEvent.textpos_changed p1.lx.pos] st = .ok st := by
      rw [apply_cons _ _ _ _ (on_event_tp st p1.lx.pos)]
      exact apply_events_nil st
    simp only [SAXParser.parser_init, List.nil_append]
    rw [apply_events_append_ok _ _ _ _ h1]
    exact happ2 st

/-- C3: parsing the canonical serialization of any well-formed value with
`SAXParser.run` driving a fresh `SAXHandlerBasic` succeeds and the
handler's `result` is exactly the document's translated value (integer
tokens as Python ints, decimal/float tokens as floats, strings exact,
array order preserved, all object members present); in particular "\x7b\x7d"
yields an empty dict and "[1,2,[3,4]]" the nested list [1,2,[3,4]]. -/
theorem sax_basic_roundtrip :
    (∀ v : JValue, wf_value v = true →
      parse_to_result (serialize_value v) = .ok (some (to_py v))) ∧
    parse_to_result ['\x7b', '\x7d'] = .ok (some (.pydict .nil)) ∧
    parse_to_result "[1,2,[3,4]]".toList =
      .ok (some (.pylist (.cons (.pyint 1) (.cons (.pyint 2)
        (.cons (.pylist (.cons (.pyint 3) (.cons (.pyint 4) .nil))) .nil))))) := by
  have huniv : ∀ v : JValue, wf_value v = true →
      parse_to_result (serialize_value v) = .ok (some (to_py v)) := by
    intro v hwf
    obtain ⟨p2, hrun, happ⟩ := run_serialize v hwf
    simp [parse_to_result, hrun, happ, SAXHandlerBasic.result_read]
  refine ⟨huniv, by decide, ?_⟩
  have hser : serialize_value (JValue.jarr (.cons (.jnum ['1']) (.cons (.jnum ['2'])
      (.cons (.jarr (.cons (.jnum ['3']) (.cons (.jnum ['4']) .nil))) .nil)))) =
      "[1,2,[3,4]]".toList := by
    simp only [serialize_value, serialize_items, serialize_items_rest]
    decide
  have hwf34 : wf_value (JValue.jarr (.cons (.jnum ['1']) (.cons (.jnum ['2'])
      (.cons (.jarr (.cons (.jnum ['3']) (.cons (.jnum ['4']) .nil))) .nil)))) = true := by
    simp only [wf_value, wf_items]
    decide
  have hto : to_py (JValue.jarr (.cons (.jnum ['1']) (.cons (.jnum ['2'])
      (.cons (.jarr (.cons (.jnum ['3']) (.cons (.jnum ['4']) .nil))) .nil)))) =
      .pylist (.cons (.pyint 1) (.cons (.pyint 2)
        (.cons (.pylist (.cons (.pyint 3) (.cons (.pyint 4) .nil))) .nil))) := by
    simp only [to_py, to_py_items]
    decide
  rw [← hser, huniv _ hwf34, hto]

theorem sax_basic_roundtrip_witness :
    wf_value (JValue.jobj (.cons ['a'] (.jnum ['1'])
      (.cons ['b'] (.jarr (.cons .jnull .nil)) .nil))) = true ∧
    parse_to_result (serialize_value (JValue.jobj (.cons ['a'] (.jnum ['1'])
      (.cons ['b'] (.jarr (.cons .jnull .nil)) .nil)))) =
      .ok (some (to_py (JValue.jobj (.cons ['a'] (.jnum ['1'])
        (.cons ['b'] (.jarr (.cons .jnull .nil)) .nil))))) :=
  ⟨by simp only [wf_value, wf_items, wf_members]; decide,
   sax_basic_roundtrip.1 _ (by simp only [wf_value, wf_items, wf_members]; decide)⟩

/-- C10: the handler's `result` read is destructive: after one successful
parse the stack holds exactly one item, the first read returns it leaving
an empty stack, a read of the empty stack (a subsequent read, or after
parsing empty input) returns `none`, and a read with two or more stacked
items raises the unexpected-stack-size error. -/
theorem handler_result_destructive_read :
    (∀ v : JValue, wf_value v = true →
      ∃ p2, SAXParser.run (serialize_value v) = .ok p2 ∧
        SAXHandlerBasic.apply_events p2.events [] = .ok [to_py v] ∧
        SAXHandlerBasic.result_read [to_py v] = .ok (some (to_py v), []) ∧
        SAXHandlerBasic.result_read [] = .ok (none, [])) ∧
    parse_to_result [] = .ok none ∧
    (∀ (x y : PyValue) (st : List PyValue),
      SAXHandlerBasic.result_read (x :: y :: st) = .error ⟨"Unexpected stack size"⟩) := by
  refine ⟨?_, by decide, fun x y st => rfl⟩
  intro v hwf
  obtain ⟨p2, hrun, happ⟩ := run_serialize v hwf
  exact ⟨p2, hrun, happ [], rfl, rfl⟩

theorem handler_result_destructive_read_witness :
    wf_value (JValue.jarr (.cons (.jbool true) .nil)) = true ∧
    ∃ p2, SAXParser.run (serialize_value (JValue.jarr (.cons (.jbool true) .nil))) =
        .ok p2 ∧
      SAXHandlerBasic.apply_events p2.events [] =
        .ok [to_py (JValue.jarr (.cons (.jbool true) .nil))] ∧
      SAXHandlerBasic.result_read [to_py (JValue.jarr (.cons (.jbool true) .nil))] =
        .ok (some (to_py (JValue.jarr (.cons (.jbool true) .nil))), []) ∧
      SAXHandlerBasic.result_read [] = .ok (none, []) :=
  ⟨by simp only [wf_value, wf_items]; decide,
   handler_result_destructive_read.1 _ (by simp only [wf_value, wf_items]; decide)⟩

/-- C2(amended): a missing or mismatched array terminator raises the
unclosed-array error at the lexer's current position (`_curr_pos()` at
the point the check fails), not at the array's opening bracket: proved
for `'[' ++ serialization of any well-formed value` (error after the
value, where the stream ends), and pinned concretely: "[" errors at
(1,1), "[1" at (1,2), "[true" at (1,5). -/
theorem unclosed_array_error_at_current_position :
    (∀ v : JValue, wf_value v = true →
      ∃ pos, SAXParser.run ('[' :: serialize_value v) =
        .error (.err ⟨pos, JSONParserMessage.ERR_UNCLOSED_ARRAY⟩)) ∧
    SAXParser.run "[".toList =
      .error (.err ⟨⟨1, 1⟩, JSONParserMessage.ERR_UNCLOSED_ARRAY⟩) ∧
    SAXParser.run "[1".toList =
      .error (.err ⟨⟨1, 2⟩, JSONParserMessage.ERR_UNCLOSED_ARRAY⟩) ∧
    SAXParser.run "[true".toList =
      .error (.err ⟨⟨1, 5⟩, JSONParserMessage.ERR_UNCLOSED_ARRAY⟩) := by
  refine ⟨?_, rfl, rfl, rfl⟩
  intro v hwf
  have hlen := bound_le_serialize v hwf
  have hready : ready_at (Lexer.init_lexer ('[' :: serialize_value v))
      ('[' :: serialize_value v) := ⟨rfl, Or.inl ⟨Or.inr rfl, rfl⟩⟩
  obtain ⟨pos1, st1, hlex1, hacc1⟩ := nl_structural
    (Lexer.init_lexer ('[' :: serialize_value v)) '[' (serialize_value v)
    .BEGIN_ARRAY hready rfl
  have hnl1 := pnext_some (SAXParser.parser_init ('[' :: serialize_value v)) _ st1 hlex1
  have hct1 : SAXParser.curr_token ⟨st1,
      some ⟨pos1, .BEGIN_ARRAY, ['['], .LT_UNKNOWN, .NT_UNKNOWN⟩,
      (SAXParser.parser_init ('[' :: serialize_value v)).events ++
        [.textpos_changed st1.pos]⟩ = .BEGIN_ARRAY := rfl
  have hreadyv : ready_at st1 (serialize_value v ++ []) := by
    simpa using acc_ready _ _ hacc1
  obtain ⟨q2, hnl2, hvs2, hev2⟩ := value_first v
    (SAXParser.emit ⟨st1, some ⟨pos1, .BEGIN_ARRAY, ['['], .LT_UNKNOWN, .NT_UNKNOWN⟩,
      (SAXParser.parser_init ('[' :: serialize_value v)).events ++
        [.textpos_changed st1.pos]⟩ .on_begin_array) [] hwf hreadyv rfl
  have hne2 := value_started_ne_end_array v q2 _ hvs2
  obtain ⟨q3, Δv, hpv, hev3, happ3, hbound3⟩ :=
    (parse_round (2 * (serialize_value v).length + 6)).1 v q2 [] hwf hvs2 (by omega)
  obtain ⟨s3, hnl3, heof3⟩ := boundary_nil_end q3.lx hbound3
  have hnl4 := pnext_none q3 s3 hnl3
  have hct4 : SAXParser.curr_token ⟨s3, none, q3.events⟩ = .UNKNOWN := rfl
  have e8 : 2 * ('[' :: serialize_value v).length + 8 =
      2 * (serialize_value v).length + 9 + 1 := by
    simp only [List.length_cons]
    omega
  have e9 : 2 * (serialize_value v).length + 9 =
      2 * (serialize_value v).length + 8 + 1 := by omega
  have e7 : 2 * (serialize_value v).length + 8 =
      2 * (serialize_value v).length + 7 + 1 := by omega
  have e6 : 2 * (serialize_value v).length + 7 =
      2 * (serialize_value v).length + 6 + 1 := by omega
  have hai : SAXParser.parse_array_items (2 * (serialize_value v).length + 7) 0 q2 =
      .ok (1, ⟨s3, none, q3.events⟩) := by
    rw [e6]
    simp only [SAXParser.parse_array_items]
    simp [hpv, hnl4]
  have hpa : SAXParser.parse_array (2 * (serialize_value v).length + 8)
      ⟨st1, some ⟨pos1, .BEGIN_ARRAY, ['['], .LT_UNKNOWN, .NT_UNKNOWN⟩,
        (SAXParser.parser_init ('[' :: serialize_value v)).events ++
          [.textpos_changed st1.pos]⟩ =
      .error (.err ⟨s3.pos, JSONParserMessage.ERR_UNCLOSED_ARRAY⟩) := by
    rw [e7]
    simp only [SAXParser.parse_array]
    simp [hct1, hnl2, hne2, hai, SAXParser.end_array_check, hct4]
  have hpv9 : SAXParser.parse_value (2 * (serialize_value v).length + 9)
      ⟨st1, some ⟨pos1, .BEGIN_ARRAY, ['['], .LT_UNKNOWN, .NT_UNKNOWN⟩,
        (SAXParser.parser_init ('[' :: serialize_value v)).events ++
          [.textpos_changed st1.pos]⟩ =
      .error (.err ⟨s3.pos, JSONParserMessage.ERR_UNCLOSED_ARRAY⟩) := by
    rw [e9]
    simp only [SAXParser.parse_value]
    simp [hct1, hpa]
  refine ⟨s3.pos, ?_⟩
  have hr : SAXParser.run ('[' :: serialize_value v) =
      SAXParser.parse_doc (2 * ('[' :: serialize_value v).length + 8)
        (SAXParser.parser_init ('[' :: serialize_value v)) := rfl
  rw [hr, e8]
  simp only [SAXParser.parse_doc]
  simp [hnl1, hpv9]

theorem unclosed_array_error_at_current_position_witness :
    wf_value (JValue.jnum ['1']) = true ∧
    ∃ pos, SAXParser.run ('[' :: serialize_value (JValue.jnum ['1'])) =
      .error (.err ⟨pos, JSONParserMessage.ERR_UNCLOSED_ARRAY⟩) :=
  ⟨by decide, unclosed_array_error_at_current_position.1 _ (by decide)⟩

end JsonSax
